import Mathlib

/-
Shallow embedding of the RTBKit post-auction event matcher
(src/rtbkit/core/post_auction/event_matcher.cc).

The matcher reconciles auction submissions, win/loss notifications and
campaign delivery events into per-(auctionId, adSpotId) outcomes while
driving a financial banker.  The C++ state (the `submitted` and `finished`
pending maps, the banker, the outcome sinks, the telemetry counters) is
embedded as an explicit `MState` record threaded through the handlers;
exceptions are `Option String` error results; C++ mutations performed
before a throw are preserved in the returned state, matching C++
semantics.  Timestamps are integers (seconds); money amounts are integer
values (the currency component of the source's `Amount` is not modelled,
no claim depends on it).
-/

set_option linter.unusedVariables false

namespace RTBKIT

/-- Opaque identifier; `0` plays the role of the null `Id()` (the source
tests emptiness with `!adSpotId`). -/
abbrev Ident := Nat

/-- Absolute time in seconds. -/
abbrev Date := Int

/-- Money value (the `value` field of the source's `Amount`); `0` is the
null `Amount()`. -/
abbrev Amount := Int

/-- Hierarchical account path; empty list is the invalid/empty key. -/
abbrev AccountKey := List String

/-- Composite key of both pending maps: (auctionId, adSpotId). -/
abbrev MatchKey := Ident × Ident

inductive BidStatus
  | bs_win
  | bs_loss
deriving DecidableEq, Repr

inductive PAEType
  | pae_win
  | pae_loss
  | pae_campaign_event
deriving DecidableEq, Repr

/-- `print(event->type)` for the type strings used in counter names. -/
def paePrint : PAEType → String
  | .pae_win => "WIN"
  | .pae_loss => "LOSS"
  | .pae_campaign_event => "CAMPAIGN_EVENT"

inductive Confidence
  | guaranteed
  | inferred
deriving DecidableEq, Repr

inductive MWLType
  | win
  | loss
  | lateWin
deriving DecidableEq, Repr

/-- Modelled from the spec: the bid request's list of ad spots, consulted
only through `findAdSpotIndex` (the `BidRequest` class itself is not part
of the analysed source file). -/
structure BidRequest where
  adspots : List Ident
deriving DecidableEq, Repr

/-- Modelled from the spec: `bidRequest.findAdSpotIndex(adSpotId)` resolves
the spot index, returning -1 when the spot is not part of the auction. -/
def findAdSpotIndex (br : BidRequest) (adSpotId : Ident) : Int :=
  match br.adspots.indexOf? adSpotId with
  | some i => (i : Int)
  | none => -1

structure BidPrice where
  maxPrice : Amount
  priority : Int
deriving DecidableEq, Repr

/-- The bid (`Auction::Response`) attached to a submission.  The win-cost
model is external to the analysed source; modelled from the spec as a
response-embedded function mapping (spot index, win meta, winPrice) to the
actually charged price. -/
structure AuctionResponse where
  agent : String
  account : AccountKey
  price : BidPrice
  wcm : Int → String → Amount → Amount
  bidData : String
  visitChannels : List String

def defaultResponse : AuctionResponse :=
  { agent := ""
    account := []
    price := { maxPrice := 0, priority := 0 }
    wcm := fun _ _ p => p
    bidData := ""
    visitChannels := [] }

instance : Inhabited AuctionResponse := ⟨defaultResponse⟩

structure PostAuctionEvent where
  type : PAEType
  auctionId : Ident
  adSpotId : Ident
  label : String
  winPrice : Amount
  timestamp : Date
  bidTimestamp : Date
  metadata : String
  uids : List Nat
  account : AccountKey
deriving Repr

structure SubmittedAuctionEvent where
  auctionId : Ident
  adSpotId : Ident
  lossTimeout : Date
  bidRequest : BidRequest
  bidRequestStr : String
  bidRequestStrFormat : String
  augmentations : String
  bidResponse : AuctionResponse

/-- Entry of the `submitted` map. -/
structure SubmissionInfo where
  bidRequest : Option BidRequest := none
  bidRequestStr : String := ""
  bidRequestStrFormat : String := ""
  augmentations : String := ""
  bid : AuctionResponse := defaultResponse
  earlyWinEvents : List PostAuctionEvent := []
  earlyCampaignEvents : List PostAuctionEvent := []

/-- Entry of the `finished` map. -/
structure FinishedInfo where
  auctionId : Ident := 0
  adSpotId : Ident := 0
  spotIndex : Int := -1
  bidRequest : Option BidRequest := none
  bidRequestStr : String := ""
  bidRequestStrFormat : String := ""
  bid : AuctionResponse := defaultResponse
  reportedStatus : BidStatus := .bs_loss
  winTime : Date := 0
  price : Amount := 0
  winPrice : Amount := 0
  winMeta : String := ""
  campaignEvents : List (String × Date × String) := []
  uids : List Nat := []
  visitChannels : List String := []

/-- Modelled from the spec: `FinishedInfo::hasWin()` — whether the recorded
outcome is a WIN (the class lives outside the analysed source; §4.3 case A
distinguishes a recorded WIN from a previously inferred LOSS with it). -/
def hasWin (i : FinishedInfo) : Prop := i.reportedStatus = .bs_win

instance (i : FinishedInfo) : Decidable (hasWin i) := by
  unfold hasWin; infer_instance

/-- Modelled from the spec: `FinishedInfo::setWin` records the reported
outcome, its timestamp, the charged price, the raw win price and the meta. -/
def setWin (i : FinishedInfo) (t : Date) (status : BidStatus)
    (price winPrice : Amount) (meta : String) : FinishedInfo :=
  { i with winTime := t, reportedStatus := status, price := price,
           winPrice := winPrice, winMeta := meta }

/-- Modelled from the spec: `FinishedInfo::forceWin` overlays a WIN onto an
entry previously recorded as an inferred loss (§4.3 case A late win). -/
def forceWin (i : FinishedInfo) (t : Date) (winPrice : Amount)
    (meta : String) : FinishedInfo :=
  { i with winTime := t, reportedStatus := .bs_win, price := winPrice,
           winPrice := winPrice, winMeta := meta }

/-- Union of user-id sets (`FinishedInfo::addUids`), keeping first-seen
order and ignoring ids already present. -/
def addUidList (base : List Nat) (us : List Nat) : List Nat :=
  us.foldl (fun acc u => if u ∈ acc then acc else acc ++ [u]) base

def addUids (i : FinishedInfo) (us : List Nat) : FinishedInfo :=
  { i with uids := addUidList i.uids us }

/-- `campaignEvents.hasEvent(label)` -/
def hasCampaignEvent (evs : List (String × Date × String)) (label : String) : Bool :=
  evs.any (fun e => e.1 == label)

/-- `campaignEvents.setEvent(label, timestamp, meta)` (at most one entry
per label; callers check `hasEvent` first). -/
def setCampaignEvent (evs : List (String × Date × String))
    (label : String) (t : Date) (meta : String) : List (String × Date × String) :=
  evs ++ [(label, t, meta)]

def makeBidId (auctionId spotId : Ident) (agent : String) : String :=
  toString auctionId ++ "-" ++ toString spotId ++ "-" ++ agent

def accountStr (a : AccountKey) : String := String.intercalate "." a

/-! ### Pending maps

Modelled from the spec (§4.1): the `PendingList` container is not part of
the analysed source file.  A pending map is a list of entries keyed by
`MatchKey` with an absolute per-entry expiry; point operations behave as a
map, `minSpotFor` implements `completePrefix` (deterministically the
smallest spot id stored under the auction), and expiry visits entries with
`expiresAt ≤ now` in non-decreasing expiry order. -/

structure PEntry (V : Type) where
  key : MatchKey
  val : V
  expiry : Date

abbrev Pending (V : Type) := List (PEntry V)

def plookup {V : Type} : Pending V → MatchKey → Option (V × Date)
  | [], _ => none
  | e :: es, k => if e.key = k then some (e.val, e.expiry) else plookup es k

def pget {V : Type} (p : Pending V) (k : MatchKey) : Option V :=
  (plookup p k).map (fun x => x.1)

def pcontains {V : Type} (p : Pending V) (k : MatchKey) : Bool :=
  (plookup p k).isSome

def premove {V : Type} : Pending V → MatchKey → Pending V
  | [], _ => []
  | e :: es, k => if e.key = k then premove es k else e :: premove es k

def pinsert {V : Type} (p : Pending V) (k : MatchKey) (v : V) (d : Date) : Pending V :=
  ⟨k, v, d⟩ :: premove p k

def pupdate {V : Type} : Pending V → MatchKey → V → Pending V
  | [], _, _ => []
  | e :: es, k, v =>
      if e.key = k then { e with val := v } :: pupdate es k v
      else e :: pupdate es k v

/-- `completePrefix((auctionId, Id()))`: smallest ad-spot id stored under
this auction, if any. -/
def minSpotFor {V : Type} : Pending V → Ident → Option Ident
  | [], _ => none
  | e :: es, a =>
      let rest := minSpotFor es a
      if e.key.1 = a then
        match rest with
        | none => some e.key.2
        | some m => some (min e.key.2 m)
      else rest

/-- `findAuction(pending, auctionId, adSpotId, val)` with spot-prefix
completion when the event carries an empty ad-spot id; on success returns
the (possibly completed) spot id and the stored value. -/
def findAuction {V : Type} (p : Pending V) (auctionId adSpotId : Ident) :
    Option (Ident × V) :=
  if adSpotId = 0 then
    match minSpotFor p auctionId with
    | some spot => (pget p (auctionId, spot)).map (fun v => (spot, v))
    | none => none
  else
    (pget p (auctionId, adSpotId)).map (fun v => (adSpotId, v))

/-! ### Matcher state -/

inductive BankerOp
  | attachBid (account : AccountKey) (bidId : String) (maxPrice : Amount)
  | winBid (account : AccountKey) (bidId : String) (price : Amount)
  | forceWinBid (account : AccountKey) (winPrice : Amount)
  | cancelBid (account : AccountKey) (bidId : String)
  | logBidEvents
deriving DecidableEq, Repr

/-- The three commit/release operations of the banker interface (§6);
`attachBid` and `logBidEvents` are not settlements. -/
def isSettlement : BankerOp → Bool
  | .winBid .. => true
  | .forceWinBid .. => true
  | .cancelBid .. => true
  | _ => false

inductive Outcome
  | matchedWinLoss (kind : MWLType) (conf : Confidence) (info : FinishedInfo)
      (timestamp : Date) (uids : List Nat)
  | matchedCampaignEvent (label : String) (info : FinishedInfo)
  | unmatchedEvent (reason : String) (ev : PostAuctionEvent)

/-- Configuration: expiry intervals and which optional outcome sinks were
injected at construction. -/
structure Config where
  winTimeout : Int := 3600
  auctionTimeout : Int := 3600
  hasOnMatchedWinLoss : Bool := true
  hasOnMatchedCampaignEvent : Bool := true
  hasOnUnmatchedEvent : Bool := true

structure MState where
  cfg : Config := {}
  submitted : Pending SubmissionInfo := []
  finished : Pending FinishedInfo := []
  banker : List BankerOp := []
  outcomes : List Outcome := []
  counters : List String := []
  errors : List String := []
  numWins : Nat := 0
  numLosses : Nat := 0
  numCampaignEvents : Nat := 0

def recordHit (s : MState) (name : String) : MState :=
  { s with counters := s.counters ++ [name] }

def recordErr (s : MState) (scope : String) : MState :=
  { s with errors := s.errors ++ [scope] }

def pushBanker (s : MState) (op : BankerOp) : MState :=
  { s with banker := s.banker ++ [op] }

def pushOutcome (s : MState) (o : Outcome) : MState :=
  { s with outcomes := s.outcomes ++ [o] }

/-! ### The event handlers

Each handler returns the new state together with `some errMsg` when the
C++ code would throw; state mutations (and the scoped-release `cancelBid`)
performed before the throw are kept, as in C++. -/

/-- The `FinishedInfo` built at the end of `doBidResult` (construction,
`reportedStatus` assignment, `setWin`, `addUids`, `visitChannels` copy). -/
def finishedInfoOf (auctionId adSpotId : Ident) (spotIdx : Int)
    (submission : SubmissionInfo) (status : BidStatus)
    (price winPrice : Amount) (timestamp : Date)
    (winLossMeta : String) (uids : List Nat) : FinishedInfo :=
  let i : FinishedInfo :=
    { auctionId := auctionId
      adSpotId := adSpotId
      spotIndex := spotIdx
      bidRequest := submission.bidRequest
      bidRequestStr := submission.bidRequestStr
      bidRequestStrFormat := submission.bidRequestStrFormat
      bid := submission.bid
      reportedStatus := status
      visitChannels := submission.bid.visitChannels }
  addUids (setWin i timestamp status price winPrice winLossMeta) uids

/-- `EventMatcher::doBidResult`: commit the outcome of a submission.  The
scoped release (`ML::Call_Guard`) is modelled by emitting `cancelBid` at
every exit past its arming point that did not disarm it: the no-bid throw
and the LOSS scope exit. -/
def doBidResult (now : Date) (auctionId adSpotId : Ident)
    (submission : SubmissionInfo) (winPrice : Amount) (timestamp : Date)
    (status : BidStatus) (confidence : Confidence)
    (winLossMeta : String) (uids : List Nat)
    (s : MState) : MState × Option String :=
  if adSpotId = 0 then (s, some "doBidResult.nullFinishedEntry")
  else
    match submission.bidRequest with
    | none => (s, some "doBidResult.nullBidRequest")
    | some br =>
      let agent := submission.bid.agent
      let adspotNum : Int := findAdSpotIndex br adSpotId
      let s := if adspotNum = -1 then recordErr s "doBidResult.adSpotIdNotFound" else s
      let response := submission.bid
      let account := response.account
      if account = [] then (s, some "doBidResult.invalidAccountKey")
      else
        let bidPrice := response.price.maxPrice
        let s := if bidPrice < winPrice then recordErr s "doBidResult.winPriceExceedsBidPrice" else s
        -- the scoped release (cancelBid on exit) is armed at this point
        if bidPrice = 0 ∧ response.price.priority = 0 then
          let s := recordErr s "doBidResult.responseadNoBidPrice"
          (pushBanker s (.cancelBid account (makeBidId auctionId adSpotId agent)),
           some "doBidResult.responseadNoBidPrice")
        else
          match status with
          | .bs_win =>
            let price := response.wcm adspotNum winLossMeta winPrice
            let s := recordHit s ("accounts." ++ accountStr account ++ ".winPrice")
            let s := recordHit s ("accounts." ++ accountStr account ++ ".winCostPrice")
            -- guard cleared, then the real win committed
            let s := pushBanker s (.winBid account (makeBidId auctionId adSpotId agent) price)
            let i := finishedInfoOf auctionId adSpotId adspotNum submission .bs_win
                       price winPrice timestamp winLossMeta uids
            let s := if s.cfg.hasOnMatchedWinLoss then
                pushOutcome s (.matchedWinLoss .win confidence i timestamp uids)
              else s
            ({ s with finished := (pinsert s.finished (auctionId, adSpotId) i
                        (now + s.cfg.winTimeout)) }, none)
          | .bs_loss =>
            let i := finishedInfoOf auctionId adSpotId adspotNum submission .bs_loss
                       winPrice winPrice timestamp winLossMeta uids
            let s := if s.cfg.hasOnMatchedWinLoss then
                pushOutcome s (.matchedWinLoss .loss confidence i timestamp uids)
              else s
            let s := { s with finished := (pinsert s.finished (auctionId, adSpotId) i
                        (now + s.cfg.auctionTimeout)) }
            -- scope exit: the armed release cancels the reservation
            (pushBanker s (.cancelBid account (makeBidId auctionId adSpotId agent)), none)

/-- `EventMatcher::doCampaignEvent`.  `recordUnmatched` invokes the
`onUnmatchedEvent` sink with no presence guard in the source; invoking an
absent `std::function` throws, modelled by the `hasOnUnmatchedEvent`
branches. -/
def doCampaignEvent (event : PostAuctionEvent) (s : MState) : MState × Option String :=
  if event.type ≠ .pae_campaign_event then (s, some "doCampaignEvent.badEventType")
  else
    let label := event.label
    let s := recordHit s ("delivery.EVENT." ++ label ++ ".messagesReceived")
    match findAuction s.submitted event.auctionId event.adSpotId with
    | some (spot, submissionInfo) =>
      let s := recordHit s ("delivery." ++ label ++ ".stillInFlight")
      let s := recordErr s ("doCampaignEvent.auctionNotWon" ++ label)
      if s.cfg.hasOnUnmatchedEvent then
        let s := pushOutcome s (.unmatchedEvent "inFlight" event)
        let info := { submissionInfo with
          earlyCampaignEvents := submissionInfo.earlyCampaignEvents ++ [event] }
        ({ s with submitted := pupdate s.submitted (event.auctionId, spot) info }, none)
      else (s, some "doCampaignEvent.unmatchedSinkAbsent")
    | none =>
      match findAuction s.finished event.auctionId event.adSpotId with
      | some (spot, finishedInfo) =>
        if hasCampaignEvent finishedInfo.campaignEvents label then
          let s := recordHit s ("delivery." ++ label ++ ".duplicate")
          let s := recordErr s ("doCampaignEvent.duplicate" ++ label)
          if s.cfg.hasOnUnmatchedEvent then
            (pushOutcome s (.unmatchedEvent "duplicate" event), none)
          else (s, some "doCampaignEvent.unmatchedSinkAbsent")
        else
          let info := { finishedInfo with
            campaignEvents := setCampaignEvent finishedInfo.campaignEvents label
              event.timestamp event.metadata }
          let s := { s with numCampaignEvents := s.numCampaignEvents + 1 }
          let s := recordHit s ("delivery." ++ label ++ ".account." ++
                     accountStr info.bid.account ++ ".matched")
          if spot = 0 then (s, some "doCampaignEvent.nullFinishedEntry")
          else
            let info := addUids info event.uids
            let s := { s with finished := pupdate s.finished (event.auctionId, spot) info }
            let s := if s.cfg.hasOnMatchedCampaignEvent then
                pushOutcome s (.matchedCampaignEvent label info)
              else s
            (s, none)
      | none =>
        let s := recordHit s ("delivery." ++ label ++ ".auctionNotFound")
        let s := recordErr s ("doCampaignEvent.auctionNotFound" ++ label)
        if s.cfg.hasOnUnmatchedEvent then
          (pushOutcome s (.unmatchedEvent "auctionNotFound" event), none)
        else (s, some "doCampaignEvent.unmatchedSinkAbsent")

/-- The `std::for_each` replay of buffered early campaign events at the
end of `doWinLoss`; an exception aborts the remaining replays. -/
def replayCampaignEvents : List PostAuctionEvent → MState → MState × Option String
  | [], s => (s, none)
  | e :: es, s =>
    match doCampaignEvent e s with
    | (s1, none) => replayCampaignEvents es s1
    | (s1, some err) => (s1, some err)

/-- `EventMatcher::doWinLoss`. -/
def doWinLoss (now : Date) (event : PostAuctionEvent) (isReplay : Bool)
    (s : MState) : MState × Option String :=
  let status : BidStatus := if event.type = .pae_win then .bs_win else .bs_loss
  let s := if event.type = .pae_win then
      recordHit { s with numWins := s.numWins + 1 } "processedWin"
    else recordHit { s with numLosses := s.numLosses + 1 } "processedLoss"
  let typeStr := paePrint event.type
  let s := if isReplay then recordHit s ("bidResult." ++ typeStr ++ ".messagesReplayed")
    else recordHit s ("bidResult." ++ typeStr ++ ".messagesReceived")
  let key : MatchKey := (event.auctionId, event.adSpotId)
  let timeGapMs : Int := 1000 * (now - event.bidTimestamp)
  match pget s.finished key with
  | some info =>
    if hasWin info ∧ status = info.reportedStatus then
      if event.winPrice = info.winPrice then
        (recordHit s ("bidResult." ++ typeStr ++ ".duplicate"), none)
      else
        (recordHit s ("bidResult." ++ typeStr ++ ".duplicateWithDifferentPrice"), none)
    else
      let s := recordHit s ("bidResult." ++ typeStr ++ ".auctionAlreadyFinished")
      let s := recordHit s ("bidResult." ++ typeStr ++ ".alreadyFinishedTimeSinceBidSubmittedMs")
      if event.type = .pae_win then
        let s := pushBanker s (.forceWinBid info.bid.account event.winPrice)
        let info2 := forceWin info event.timestamp event.winPrice event.metadata
        let s := { s with finished := pupdate s.finished key info2 }
        let s := if s.cfg.hasOnMatchedWinLoss then
            pushOutcome s (.matchedWinLoss .lateWin .guaranteed info2 event.timestamp event.uids)
          else s
        let s := recordHit s ("bidResult." ++ typeStr ++ ".winAfterLossAssumed")
        (recordHit s ("bidResult." ++ typeStr ++ ".winAfterLossAssumedAmount"), none)
      else (s, none)
  | none =>
    match pget s.submitted key with
    | none =>
      if timeGapMs < 15000 then
        let s := recordHit s ("bidResult." ++ typeStr ++ ".noBidSubmitted")
        let info : SubmissionInfo := { earlyWinEvents := [event] }
        ({ s with submitted := pinsert s.submitted key info (now + 15) }, none)
      else
        let s := recordHit s ("bidResult." ++ typeStr ++ ".notInSubmitted")
        let s := recordHit s ("bidResult." ++ typeStr ++ ".notInSubmittedTimeSinceBidSubmittedMs")
        if event.account = [] then (s, none)
        else (pushBanker s (.forceWinBid event.account event.winPrice), none)
    | some info =>
      let s := { s with submitted := premove s.submitted key }
      match info.bidRequest with
      | none =>
        let info2 := { info with earlyWinEvents := info.earlyWinEvents ++ [event] }
        ({ s with submitted := pinsert s.submitted key info2 (now + 15) }, none)
      | some _ =>
        let s := recordHit s ("bidResult." ++ typeStr ++ ".delivered")
        let confidence : Confidence := if status = .bs_win then .guaranteed else .inferred
        match doBidResult now event.auctionId event.adSpotId info event.winPrice
                event.timestamp status confidence event.metadata event.uids s with
        | (s1, some err) => (s1, some err)
        | (s1, none) => replayCampaignEvents info.earlyCampaignEvents s1

/-- Replay of buffered early win events at the end of `doAuction`; an
exception aborts the remaining replays (it is then swallowed by
`doAuction`'s catch). -/
def replayEarlyWins (now : Date) : List PostAuctionEvent → MState → MState × Option String
  | [], s => (s, none)
  | e :: es, s =>
    let s := recordHit s "replayedEarlyWinEvent"
    match doWinLoss now e true s with
    | (s1, none) => replayEarlyWins now es s1
    | (s1, some err) => (s1, some err)

/-- `EventMatcher::doAuction`: ingest a submitted-auction notification
(errors are swallowed by its own catch). -/
def doAuction (now : Date) (event : SubmittedAuctionEvent) (s : MState) : MState :=
  let s := recordHit s "processedAuction"
  let key : MatchKey := (event.auctionId, event.adSpotId)
  let step :=
    match pget s.submitted key with
    | some prior =>
      ({ prior with earlyWinEvents := [] }, prior.earlyWinEvents,
       recordHit { s with submitted := premove s.submitted key } "auctionAlreadySubmitted")
    | none => (({} : SubmissionInfo), ([] : List PostAuctionEvent), s)
  let submission := { step.1 with
    bidRequest := some event.bidRequest
    bidRequestStrFormat := event.bidRequestStrFormat
    bidRequestStr := event.bidRequestStr
    augmentations := event.augmentations
    bid := event.bidResponse }
  let s := { step.2.2 with
    submitted := pinsert step.2.2.submitted key submission event.lossTimeout }
  let transId := makeBidId event.auctionId event.adSpotId event.bidResponse.agent
  let s := pushBanker s (.attachBid event.bidResponse.account transId
             event.bidResponse.price.maxPrice)
  (replayEarlyWins now step.2.1 s).1

/-- `EventMatcher::doEvent`: the dispatcher; any escaping exception is
caught and swallowed. -/
def doEvent (now : Date) (event : PostAuctionEvent) (s : MState) : MState :=
  match event.type with
  | .pae_win => (doWinLoss now event false s).1
  | .pae_loss => (doWinLoss now event false s).1
  | .pae_campaign_event => (doCampaignEvent event s).1

/-! ### Expiry sweeper -/

def expiredOf {V : Type} (p : Pending V) (now : Date) : Pending V :=
  p.filter (fun e => decide (e.expiry ≤ now))

def liveOf {V : Type} (p : Pending V) (now : Date) : Pending V :=
  p.filter (fun e => decide (now < e.expiry))

/-- Insertion keeping non-decreasing expiry order (the expiration visitor
of the pending map runs in non-decreasing expiry order). -/
def insertByExpiry {V : Type} (e : PEntry V) : Pending V → Pending V
  | [] => [e]
  | x :: xs => if e.expiry < x.expiry then e :: x :: xs else x :: insertByExpiry e xs

def sortByExpiry {V : Type} (l : Pending V) : Pending V :=
  l.foldl (fun acc e => insertByExpiry e acc) []

/-- The per-entry body of the submitted-map sweep in
`EventMatcher::checkExpiredAuctions` (inferred-loss synthesis); the
per-entry try/catch records the error and continues. -/
def sweepSubmittedEntry (now : Date) (e : PEntry SubmissionInfo) (s : MState) : MState :=
  let s := recordHit s "submittedAuctionExpiry"
  match e.val.bidRequest with
  | none => recordHit s "submittedAuctionExpiryWithoutBid"
  | some _ =>
    match doBidResult now e.key.1 e.key.2 e.val 0 now .bs_loss .inferred "null" [] s with
    | (s1, none) => s1
    | (s1, some _) => recordErr s1 "checkExpiredAuctions.loss"

/-- `EventMatcher::checkExpiredAuctions`: sweep expired submitted entries
into inferred losses, drop expired finished entries, then have the banker
log its accumulated bid events. -/
def checkExpiredAuctions (now : Date) (s : MState) : MState :=
  let expSub := sortByExpiry (expiredOf s.submitted now)
  let s := { s with submitted := liveOf s.submitted now }
  let s := expSub.foldl (fun acc e => sweepSubmittedEntry now e acc) s
  let expFin := sortByExpiry (expiredOf s.finished now)
  let s := { s with finished := liveOf s.finished now }
  let s := expFin.foldl (fun acc _ => recordHit acc "finishedAuctionExpiry") s
  pushBanker s .logBidEvents

/-! ### Whole-run semantics -/

inductive Step
  | auction (now : Date) (e : SubmittedAuctionEvent)
  | event (now : Date) (e : PostAuctionEvent)
  | sweep (now : Date)

def runStep (s : MState) : Step → MState
  | .auction now e => doAuction now e s
  | .event now e => doEvent now e s
  | .sweep now => checkExpiredAuctions now s

def run (steps : List Step) (s : MState) : MState :=
  steps.foldl runStep s

/-- The submission record `doAuction` stores for an auction event: the
event's request, strings, augmentations and bid, with empty early
buffers. -/
def submissionOf (ev : SubmittedAuctionEvent) : SubmissionInfo :=
  { bidRequest := some ev.bidRequest
    bidRequestStr := ev.bidRequestStr
    bidRequestStrFormat := ev.bidRequestStrFormat
    augmentations := ev.augmentations
    bid := ev.bidResponse
    earlyWinEvents := []
    earlyCampaignEvents := [] }

/-! ### Invariants -/

/-- The property every submitted entry must keep: an entry without a bid
request buffers at least one early win event or one early campaign
event. -/
@[reducible] def earlyBuffered (v : SubmissionInfo) : Prop :=
  v.bidRequest = none → v.earlyWinEvents ≠ [] ∨ v.earlyCampaignEvents ≠ []

/-- Pending-map level form of the C7 invariant. -/
@[reducible] def PSubInv (p : Pending SubmissionInfo) : Prop :=
  ∀ en ∈ p, earlyBuffered en.val

/-- C7's invariant on the matcher state. -/
@[reducible] def SubInvariant (s : MState) : Prop := PSubInv s.submitted

/-- C6's invariant: no key lives in both pending maps. -/
@[reducible] def MapsExclusive (s : MState) : Prop :=
  ∀ k : MatchKey, pcontains s.submitted k = true → pcontains s.finished k = false

/-- Well-formedness of a pending map: each key appears at most once (the
source container is a map, so this holds for every reachable state). -/
@[reducible] def PKeysNodup {V : Type} (p : Pending V) : Prop :=
  (p.map (fun en => en.key)).Nodup

/-! ### Concrete fixtures and observation helpers -/

/-- A bid request whose only ad spot is `2`. -/
def brA : BidRequest := { adspots := [2] }

/-- A bid of 100 for account `acct`, win-cost model charging the win price. -/
def respA : AuctionResponse :=
  { agent := "ag"
    account := ["acct"]
    price := { maxPrice := 100, priority := 1 }
    wcm := fun _ _ p => p
    bidData := ""
    visitChannels := [] }

/-- Submission of auction 1, ad spot 2, with a 15 s loss timeout. -/
def saeA : SubmittedAuctionEvent :=
  { auctionId := 1
    adSpotId := 2
    lossTimeout := 15
    bidRequest := brA
    bidRequestStr := "brA"
    bidRequestStrFormat := "json"
    augmentations := ""
    bidResponse := respA }

/-- A WIN notification for auction 1, ad spot 2. -/
def winEvtA (t bt : Date) (wp : Amount) : PostAuctionEvent :=
  { type := .pae_win
    auctionId := 1
    adSpotId := 2
    label := ""
    winPrice := wp
    timestamp := t
    bidTimestamp := bt
    metadata := "m"
    uids := [7]
    account := ["acct"] }

/-- A LOSS notification for auction 1, ad spot 2. -/
def lossEvtA (t bt : Date) (wp : Amount) : PostAuctionEvent :=
  { winEvtA t bt wp with type := .pae_loss }

/-- A campaign delivery event for auction 1, ad spot 2. -/
def campEvtA (lbl : String) (t : Date) : PostAuctionEvent :=
  { type := .pae_campaign_event
    auctionId := 1
    adSpotId := 2
    label := lbl
    winPrice := 0
    timestamp := t
    bidTimestamp := 0
    metadata := "cm"
    uids := [9]
    account := [] }

/-- A no-bid response: zero max price and zero priority. -/
def respNoBid : AuctionResponse :=
  { respA with price := { maxPrice := 0, priority := 0 } }

/-- A submission whose bid is a no-bid. -/
def subNoBid : SubmissionInfo := { bidRequest := some brA, bid := respNoBid }

def initState : MState := {}

/-- A state holding one submitted no-bid entry for key (1,2). -/
def sNoBid : MState := { submitted := [⟨(1, 2), subNoBid, 15⟩] }

/-- A finished entry recording a WIN at price 80 for key (1,2). -/
def fiWinA : FinishedInfo :=
  { auctionId := 1
    adSpotId := 2
    spotIndex := 0
    bidRequest := some brA
    bidRequestStr := "brA"
    bidRequestStrFormat := "json"
    bid := respA
    reportedStatus := .bs_win
    winTime := 1
    price := 80
    winPrice := 80
    winMeta := "m"
    uids := [7] }

/-- A state whose finished map holds the WIN entry `fiWinA`. -/
def sFinWin : MState := { finished := [⟨(1, 2), fiWinA, 3600⟩] }

/-- Like `fiWinA` but with a CLICK campaign event already recorded. -/
def fiDupA : FinishedInfo := { fiWinA with campaignEvents := [("CLICK", 2, "cm")] }

/-- A state whose finished map holds `fiDupA`. -/
def sFinDup : MState := { finished := [⟨(1, 2), fiDupA, 3600⟩] }

/-- A complete submission (bid request and bid present) for key (1,2). -/
def subA : SubmissionInfo := { bidRequest := some brA, bid := respA }

/-- A state holding the single complete submitted entry `subA`, expiring
at time 15. -/
def sSubA : MState := { submitted := [⟨(1, 2), subA, 15⟩] }

/-- A request-less submission buffering one early win event. -/
def subEarly : SubmissionInfo := { earlyWinEvents := [winEvtA 1 0 80] }

/-- A state holding only the buffered early-win entry `subEarly`. -/
def sEarly : MState := { submitted := [⟨(1, 2), subEarly, 15⟩] }

/-- Like `fiWinA` but recording an inferred LOSS. -/
def fiLossA : FinishedInfo :=
  { fiWinA with reportedStatus := .bs_loss, price := 0, winPrice := 0 }

/-- A state whose finished map holds the inferred-loss entry `fiLossA`. -/
def sFinLoss : MState := { finished := [⟨(1, 2), fiLossA, 3600⟩] }

/-- An empty state whose `onUnmatchedEvent` sink is absent. -/
def sNoUSink : MState := { cfg := { hasOnUnmatchedEvent := false } }

/-- An empty state whose `onMatchedWinLoss` sink is absent. -/
def sNoWLSink : MState := { cfg := { hasOnMatchedWinLoss := false } }

/-- A state with `fiWinA` finished and no `onMatchedCampaignEvent` sink. -/
def sNoCESink : MState :=
  { cfg := { hasOnMatchedCampaignEvent := false }
    finished := [⟨(1, 2), fiWinA, 3600⟩] }

def isCancelBid : BankerOp → Bool
  | .cancelBid .. => true
  | _ => false

def isWinBid : BankerOp → Bool
  | .winBid .. => true
  | _ => false

def isForceWinBid : BankerOp → Bool
  | .forceWinBid .. => true
  | _ => false

def outcomeIsUnmatched (reason : String) : Outcome → Bool
  | .unmatchedEvent r _ => r == reason
  | _ => false

def outcomeIsMatchedWinLoss : Outcome → Bool
  | .matchedWinLoss .. => true
  | _ => false

def outcomeIsMatchedCampaign : Outcome → Bool
  | .matchedCampaignEvent .. => true
  | _ => false

def outcomeIsLateWin : Outcome → Bool
  | .matchedWinLoss .lateWin .. => true
  | _ => false

/-! ## Lemmas -/

@[simp] theorem recordHit_cfg (s : MState) (n : String) : (recordHit s n).cfg = s.cfg := rfl
@[simp] theorem recordHit_submitted (s : MState) (n : String) : (recordHit s n).submitted = s.submitted := rfl
@[simp] theorem recordHit_finished (s : MState) (n : String) : (recordHit s n).finished = s.finished := rfl
@[simp] theorem recordHit_banker (s : MState) (n : String) : (recordHit s n).banker = s.banker := rfl
@[simp] theorem recordHit_outcomes (s : MState) (n : String) : (recordHit s n).outcomes = s.outcomes := rfl
@[simp] theorem recordHit_numCampaignEvents (s : MState) (n : String) : (recordHit s n).numCampaignEvents = s.numCampaignEvents := rfl

@[simp] theorem recordErr_cfg (s : MState) (n : String) : (recordErr s n).cfg = s.cfg := rfl
@[simp] theorem recordErr_submitted (s : MState) (n : String) : (recordErr s n).submitted = s.submitted := rfl
@[simp] theorem recordErr_finished (s : MState) (n : String) : (recordErr s n).finished = s.finished := rfl
@[simp] theorem recordErr_banker (s : MState) (n : String) : (recordErr s n).banker = s.banker := rfl
@[simp] theorem recordErr_outcomes (s : MState) (n : String) : (recordErr s n).outcomes = s.outcomes := rfl
@[simp] theorem recordErr_counters (s : MState) (n : String) : (recordErr s n).counters = s.counters := rfl
@[simp] theorem recordErr_numCampaignEvents (s : MState) (n : String) : (recordErr s n).numCampaignEvents = s.numCampaignEvents := rfl

@[simp] theorem pushBanker_cfg (s : MState) (op : BankerOp) : (pushBanker s op).cfg = s.cfg := rfl
@[simp] theorem pushBanker_submitted (s : MState) (op : BankerOp) : (pushBanker s op).submitted = s.submitted := rfl
@[simp] theorem pushBanker_finished (s : MState) (op : BankerOp) : (pushBanker s op).finished = s.finished := rfl
@[simp] theorem pushBanker_banker (s : MState) (op : BankerOp) : (pushBanker s op).banker = s.banker ++ [op] := rfl
@[simp] theorem pushBanker_outcomes (s : MState) (op : BankerOp) : (pushBanker s op).outcomes = s.outcomes := rfl
@[simp] theorem pushBanker_numCampaignEvents (s : MState) (op : BankerOp) : (pushBanker s op).numCampaignEvents = s.numCampaignEvents := rfl

@[simp] theorem pushOutcome_cfg (s : MState) (o : Outcome) : (pushOutcome s o).cfg = s.cfg := rfl
@[simp] theorem pushOutcome_submitted (s : MState) (o : Outcome) : (pushOutcome s o).submitted = s.submitted := rfl
@[simp] theorem pushOutcome_finished (s : MState) (o : Outcome) : (pushOutcome s o).finished = s.finished := rfl
@[simp] theorem pushOutcome_banker (s : MState) (o : Outcome) : (pushOutcome s o).banker = s.banker := rfl
@[simp] theorem pushOutcome_outcomes (s : MState) (o : Outcome) : (pushOutcome s o).outcomes = s.outcomes ++ [o] := rfl
@[simp] theorem pushOutcome_numCampaignEvents (s : MState) (o : Outcome) : (pushOutcome s o).numCampaignEvents = s.numCampaignEvents := rfl


/-! ### Pending-map lemmas -/

@[simp] theorem plookup_nil {V : Type} (k : MatchKey) :
    plookup ([] : Pending V) k = none := rfl

theorem plookup_cons {V : Type} (e : PEntry V) (es : Pending V) (k : MatchKey) :
    plookup (e :: es) k = if e.key = k then some (e.val, e.expiry) else plookup es k := rfl

@[simp] theorem plookup_premove_self {V : Type} (p : Pending V) (k : MatchKey) :
    plookup (premove p k) k = none := by
  induction p with
  | nil => rfl
  | cons e es ih =>
    unfold premove
    by_cases h : e.key = k
    · simp [h, ih]
    · simp [h, plookup_cons, ih]

theorem plookup_premove_ne {V : Type} (p : Pending V) (k k' : MatchKey) (h : k ≠ k') :
    plookup (premove p k) k' = plookup p k' := by
  induction p with
  | nil => rfl
  | cons e es ih =>
    unfold premove
    by_cases he : e.key = k
    · rw [if_pos he, ih, plookup_cons, if_neg (he ▸ h)]
    · rw [if_neg he, plookup_cons, plookup_cons, ih]

@[simp] theorem plookup_pinsert_self {V : Type} (p : Pending V) (k : MatchKey)
    (v : V) (d : Date) : plookup (pinsert p k v d) k = some (v, d) := by
  simp [pinsert, plookup_cons]

theorem plookup_pinsert_ne {V : Type} (p : Pending V) (k k' : MatchKey)
    (v : V) (d : Date) (h : k ≠ k') :
    plookup (pinsert p k v d) k' = plookup p k' := by
  simp [pinsert, plookup_cons, h, plookup_premove_ne p k k' h]

theorem plookup_pupdate {V : Type} (p : Pending V) (k k' : MatchKey) (v : V) :
    plookup (pupdate p k v) k' =
      if k = k' then (plookup p k').map (fun x => (v, x.2)) else plookup p k' := by
  induction p with
  | nil => simp [pupdate]
  | cons e es ih =>
    unfold pupdate
    by_cases he : e.key = k
    · by_cases hk : k = k'
      · subst hk
        simp [plookup_cons, he, ih]
      · simp [plookup_cons, he, hk, ih, fun h => hk (he.symm.trans h)]
    · by_cases hk : k = k'
      · subst hk
        simp [plookup_cons, he, ih]
      · simp [plookup_cons, he, ih, hk]

theorem pcontains_pupdate {V : Type} (p : Pending V) (k k' : MatchKey) (v : V) :
    pcontains (pupdate p k v) k' = pcontains p k' := by
  unfold pcontains
  rw [plookup_pupdate]
  by_cases h : k = k' <;> simp [h]

theorem pget_pupdate_ne {V : Type} (p : Pending V) (k k' : MatchKey) (v : V)
    (h : k ≠ k') : pget (pupdate p k v) k' = pget p k' := by
  unfold pget; rw [plookup_pupdate, if_neg h]

@[simp] theorem pget_pinsert_self {V : Type} (p : Pending V) (k : MatchKey)
    (v : V) (d : Date) : pget (pinsert p k v d) k = some v := by
  simp [pget]

theorem pget_pinsert_ne {V : Type} (p : Pending V) (k k' : MatchKey)
    (v : V) (d : Date) (h : k ≠ k') :
    pget (pinsert p k v d) k' = pget p k' := by
  unfold pget; rw [plookup_pinsert_ne p k k' v d h]

theorem pcontains_pinsert {V : Type} (p : Pending V) (k k' : MatchKey)
    (v : V) (d : Date) :
    pcontains (pinsert p k v d) k' = (if k = k' then true else pcontains p k') := by
  by_cases h : k = k'
  · subst h; simp [pcontains]
  · simp [pcontains, h, plookup_pinsert_ne p k k' v d h]

theorem pcontains_premove {V : Type} (p : Pending V) (k k' : MatchKey) :
    pcontains (premove p k) k' = (if k = k' then false else pcontains p k') := by
  by_cases h : k = k'
  · subst h; simp [pcontains]
  · simp [pcontains, h, plookup_premove_ne p k k' h]


@[simp] theorem ite_pair_fst {α β : Type} (c : Prop) [Decidable c] (a b : α × β) :
    (if c then a else b).1 = if c then a.1 else b.1 := by split <;> rfl
@[simp] theorem ite_pair_snd {α β : Type} (c : Prop) [Decidable c] (a b : α × β) :
    (if c then a else b).2 = if c then a.2 else b.2 := by split <;> rfl

@[simp] theorem ite_cfg (c : Prop) [Decidable c] (a b : MState) :
    (if c then a else b).cfg = if c then a.cfg else b.cfg := by split <;> rfl
@[simp] theorem ite_submitted (c : Prop) [Decidable c] (a b : MState) :
    (if c then a else b).submitted = if c then a.submitted else b.submitted := by split <;> rfl
@[simp] theorem ite_finished (c : Prop) [Decidable c] (a b : MState) :
    (if c then a else b).finished = if c then a.finished else b.finished := by split <;> rfl
@[simp] theorem ite_banker (c : Prop) [Decidable c] (a b : MState) :
    (if c then a else b).banker = if c then a.banker else b.banker := by split <;> rfl
@[simp] theorem ite_outcomes (c : Prop) [Decidable c] (a b : MState) :
    (if c then a else b).outcomes = if c then a.outcomes else b.outcomes := by split <;> rfl
@[simp] theorem ite_counters (c : Prop) [Decidable c] (a b : MState) :
    (if c then a else b).counters = if c then a.counters else b.counters := by split <;> rfl
@[simp] theorem ite_errorsField (c : Prop) [Decidable c] (a b : MState) :
    (if c then a else b).errors = if c then a.errors else b.errors := by split <;> rfl
@[simp] theorem ite_numCampaignEvents (c : Prop) [Decidable c] (a b : MState) :
    (if c then a else b).numCampaignEvents =
      if c then a.numCampaignEvents else b.numCampaignEvents := by split <;> rfl

/-- Characterization of `doBidResult` on a no-bid submission: the fatal
exception is raised with the scoped release already armed, so exactly the
release's `cancelBid` is recorded and nothing else changes besides the
error log. -/
theorem doBidResult_noBid_spec
    (now : Date) (auctionId adSpotId : Ident) (sub : SubmissionInfo)
    (winPrice : Amount) (ts : Date) (status : BidStatus) (conf : Confidence)
    (meta : String) (uids : List Nat) (s : MState) (br : BidRequest)
    (hsp : adSpotId ≠ 0) (hbr : sub.bidRequest = some br)
    (hacc : sub.bid.account ≠ [])
    (hmax : sub.bid.price.maxPrice = 0) (hpri : sub.bid.price.priority = 0) :
    (doBidResult now auctionId adSpotId sub winPrice ts status conf meta uids s).2 =
      some "doBidResult.responseadNoBidPrice" ∧
    (doBidResult now auctionId adSpotId sub winPrice ts status conf meta uids s).1.submitted =
      s.submitted ∧
    (doBidResult now auctionId adSpotId sub winPrice ts status conf meta uids s).1.finished =
      s.finished ∧
    (doBidResult now auctionId adSpotId sub winPrice ts status conf meta uids s).1.outcomes =
      s.outcomes ∧
    (doBidResult now auctionId adSpotId sub winPrice ts status conf meta uids s).1.numCampaignEvents =
      s.numCampaignEvents ∧
    (doBidResult now auctionId adSpotId sub winPrice ts status conf meta uids s).1.banker =
      s.banker ++ [.cancelBid sub.bid.account (makeBidId auctionId adSpotId sub.bid.agent)] := by
  unfold doBidResult
  rw [if_neg hsp]
  simp [hbr, hmax, hpri, hacc, pushBanker]

theorem pget_pupdate_self {V : Type} (p : Pending V) (k : MatchKey) (v w : V)
    (h : pget p k = some w) : pget (pupdate p k v) k = some v := by
  unfold pget at h ⊢
  rw [plookup_pupdate, if_pos rfl]
  cases hl : plookup p k with
  | none => rw [hl] at h; exact absurd h (by simp)
  | some x => rfl

theorem findAuction_pget {V : Type} (p : Pending V) (a sp spot : Ident) (v : V)
    (h : findAuction p a sp = some (spot, v)) : pget p (a, spot) = some v := by
  unfold findAuction at h
  by_cases hsp : sp = 0
  · rw [if_pos hsp] at h
    cases hm : minSpotFor p a with
    | none => simp [hm] at h
    | some m =>
      simp only [hm] at h
      cases hg : pget p (a, m) with
      | none => simp [hg] at h
      | some w =>
        simp only [hg, Option.map_some', Option.some.injEq, Prod.mk.injEq] at h
        obtain ⟨h1, h2⟩ := h
        rw [← h1, hg, h2]
  · rw [if_neg hsp] at h
    cases hg : pget p (a, sp) with
    | none => simp [hg] at h
    | some w =>
      simp only [hg, Option.map_some', Option.some.injEq, Prod.mk.injEq] at h
      obtain ⟨h1, h2⟩ := h
      rw [← h1, hg, h2]

/-- `doBidResult` never touches the submitted map. -/
theorem doBidResult_submitted_eq
    (now : Date) (auctionId adSpotId : Ident) (sub : SubmissionInfo)
    (winPrice : Amount) (ts : Date) (status : BidStatus) (conf : Confidence)
    (meta : String) (uids : List Nat) (s : MState) :
    (doBidResult now auctionId adSpotId sub winPrice ts status conf meta uids s).1.submitted =
      s.submitted := by
  simp only [doBidResult]
  split
  · rfl
  · split
    · rfl
    · split
      · simp
      · split
        · simp
        · split <;> simp

/-- `doBidResult` changes the finished map at most at its own key. -/
theorem doBidResult_finished_other
    (now : Date) (auctionId adSpotId : Ident) (sub : SubmissionInfo)
    (winPrice : Amount) (ts : Date) (status : BidStatus) (conf : Confidence)
    (meta : String) (uids : List Nat) (s : MState) (key : MatchKey)
    (hk : (auctionId, adSpotId) ≠ key) :
    pget (doBidResult now auctionId adSpotId sub winPrice ts status conf meta uids s).1.finished
      key = pget s.finished key := by
  simp only [doBidResult]
  split
  · rfl
  · split
    · rfl
    · split
      · simp
      · split
        · simp
        · split <;> simp [pget_pinsert_ne _ _ _ _ _ hk]

/-- `doCampaignEvent` preserves the presence and reported status of every
finished entry (it only adds campaign events and uids to one of them). -/
theorem doCampaignEvent_finished_status
    (e : PostAuctionEvent) (s : MState) (key : MatchKey) (fi : FinishedInfo)
    (h : pget s.finished key = some fi) :
    ∃ fi2, pget (doCampaignEvent e s).1.finished key = some fi2 ∧
      fi2.reportedStatus = fi.reportedStatus := by
  simp only [doCampaignEvent, recordHit_submitted, recordHit_finished, recordErr_submitted,
    recordErr_finished, pushOutcome_submitted, pushOutcome_finished, ite_submitted,
    ite_finished, ite_self]
  split
  · exact ⟨fi, h, rfl⟩
  · split
    · split
      · exact ⟨fi, by simp; exact h, rfl⟩
      · exact ⟨fi, by simp; exact h, rfl⟩
    · split
      next spot fiF heq =>
        split
        · split
          · exact ⟨fi, by simp; exact h, rfl⟩
          · exact ⟨fi, by simp; exact h, rfl⟩
        · split
          · exact ⟨fi, by simp; exact h, rfl⟩
          · by_cases hk : (e.auctionId, spot) = key
            · subst hk
              have hp := findAuction_pget s.finished e.auctionId e.adSpotId spot fiF heq
              have hfi : fiF = fi := by rw [hp] at h; exact Option.some.inj h
              refine ⟨addUids { fiF with campaignEvents := (setCampaignEvent fiF.campaignEvents e.label e.timestamp e.metadata) } e.uids, ?_, ?_⟩
              · simp only [ite_pair_fst, ite_finished, pushOutcome_finished,
                  recordHit_finished, ite_self]
                exact pget_pupdate_self s.finished (e.auctionId, spot) _ fi h
              · simp [addUids, hfi]
            · refine ⟨fi, ?_, rfl⟩
              simp only [ite_pair_fst, ite_finished, pushOutcome_finished,
                recordHit_finished, ite_self]
              rw [pget_pupdate_ne _ _ _ _ hk]
              exact h
      · exact ⟨fi, by simp; exact h, rfl⟩

/-- Replaying early campaign events preserves the presence and reported
status of every finished entry. -/
theorem replayCampaignEvents_finished_status
    (evs : List PostAuctionEvent) (s : MState) (key : MatchKey) (fi : FinishedInfo)
    (h : pget s.finished key = some fi) :
    ∃ fi2, pget (replayCampaignEvents evs s).1.finished key = some fi2 ∧
      fi2.reportedStatus = fi.reportedStatus := by
  induction evs generalizing s fi with
  | nil => exact ⟨fi, h, rfl⟩
  | cons e es ih =>
    unfold replayCampaignEvents
    obtain ⟨fi2, h2, hs2⟩ := doCampaignEvent_finished_status e s key fi h
    rcases hd : doCampaignEvent e s with ⟨s1, err⟩
    rw [hd] at h2
    cases err with
    | none =>
      obtain ⟨fi3, h3, hs3⟩ := ih s1 fi2 h2
      exact ⟨fi3, h3, hs3.trans hs2⟩
    | some msg => exact ⟨fi2, h2, hs2⟩

/-- `doWinLoss` never downgrades a finished WIN entry: after any win/loss
notification, every key that held a WIN still holds a WIN. -/
theorem doWinLoss_finished_winkeep
    (now : Date) (e : PostAuctionEvent) (isReplay : Bool) (s : MState)
    (key : MatchKey) (fi : FinishedInfo)
    (h : pget s.finished key = some fi) (hw : fi.reportedStatus = .bs_win) :
    ∃ fi2, pget (doWinLoss now e isReplay s).1.finished key = some fi2 ∧
      fi2.reportedStatus = .bs_win := by
  unfold doWinLoss
  simp only [ite_finished, ite_submitted, recordHit_finished, recordHit_submitted, ite_self]
  split
  next infoF heqF =>
    by_cases hk : (e.auctionId, e.adSpotId) = key
    · subst hk
      repeat' split
      all_goals simp only [ite_pair_fst, ite_finished, pushOutcome_finished,
        pushBanker_finished, recordHit_finished, ite_self]
      all_goals first
        | exact ⟨fi, h, hw⟩
        | exact ⟨forceWin infoF e.timestamp e.winPrice e.metadata,
            pget_pupdate_self _ _ _ fi h, rfl⟩
    · repeat' split
      all_goals simp only [ite_pair_fst, ite_finished, pushOutcome_finished,
        pushBanker_finished, recordHit_finished, ite_self]
      all_goals first
        | exact ⟨fi, h, hw⟩
        | (refine ⟨fi, ?_, hw⟩; rw [pget_pupdate_ne _ _ _ _ hk]; exact h)
  next heqF =>
    have hne : (e.auctionId, e.adSpotId) ≠ key := by
      intro hcontra
      rw [hcontra, h] at heqF
      cases heqF
    split
    · repeat' split
      all_goals simp only [ite_pair_fst, ite_finished, pushBanker_finished,
        recordHit_finished, ite_self]
      all_goals exact ⟨fi, h, hw⟩
    · next infoS heqS =>
      split
      · exact ⟨fi, by simp; exact h, hw⟩
      · split
        next s1 err heqD =>
          have h0 := congrArg (fun x => pget x.1.finished key) heqD
          simp only at h0
          rw [doBidResult_finished_other _ _ _ _ _ _ _ _ _ _ _ key hne] at h0
          simp only [recordHit_finished] at h0
          refine ⟨fi, ?_, hw⟩
          show pget s1.finished key = some fi
          rw [← h0]
          exact h
        next s1 heqD =>
          have h0 := congrArg (fun x => pget x.1.finished key) heqD
          simp only at h0
          rw [doBidResult_finished_other _ _ _ _ _ _ _ _ _ _ _ key hne] at h0
          simp only [recordHit_finished] at h0
          have hs1 : pget s1.finished key = some fi := by rw [← h0]; exact h
          obtain ⟨fi3, h3, hs3⟩ := replayCampaignEvents_finished_status infoS.earlyCampaignEvents
            s1 key fi hs1
          exact ⟨fi3, h3, by rw [hs3]; exact hw⟩

theorem mem_premove {V : Type} (p : Pending V) (k : MatchKey) (en : PEntry V)
    (h : en ∈ premove p k) : en ∈ p := by
  induction p with
  | nil => cases h
  | cons e es ih =>
    unfold premove at h
    by_cases he : e.key = k
    · rw [if_pos he] at h
      exact List.mem_cons_of_mem _ (ih h)
    · rw [if_neg he] at h
      rcases List.mem_cons.mp h with h1 | h2
      · exact h1 ▸ List.mem_cons_self _ _
      · exact List.mem_cons_of_mem _ (ih h2)

theorem mem_pinsert {V : Type} (p : Pending V) (k : MatchKey) (v : V) (d : Date)
    (en : PEntry V) (h : en ∈ pinsert p k v d) : en = ⟨k, v, d⟩ ∨ en ∈ p := by
  rcases List.mem_cons.mp h with h1 | h2
  · exact Or.inl h1
  · exact Or.inr (mem_premove p k en h2)

theorem mem_pupdate {V : Type} (p : Pending V) (k : MatchKey) (v : V)
    (en : PEntry V) (h : en ∈ pupdate p k v) : en.val = v ∨ en ∈ p := by
  induction p with
  | nil => cases h
  | cons e es ih =>
    unfold pupdate at h
    by_cases he : e.key = k
    · rw [if_pos he] at h
      rcases List.mem_cons.mp h with h1 | h2
      · left; rw [h1]
      · rcases ih h2 with h3 | h3
        · exact Or.inl h3
        · exact Or.inr (List.mem_cons_of_mem _ h3)
    · rw [if_neg he] at h
      rcases List.mem_cons.mp h with h1 | h2
      · exact Or.inr (h1 ▸ List.mem_cons_self _ _)
      · rcases ih h2 with h3 | h3
        · exact Or.inl h3
        · exact Or.inr (List.mem_cons_of_mem _ h3)

theorem psubinv_premove (p : Pending SubmissionInfo) (k : MatchKey)
    (h : PSubInv p) : PSubInv (premove p k) :=
  fun en hen => h en (mem_premove p k en hen)

theorem psubinv_pinsert (p : Pending SubmissionInfo) (k : MatchKey)
    (v : SubmissionInfo) (d : Date) (h : PSubInv p) (hv : earlyBuffered v) :
    PSubInv (pinsert p k v d) := by
  intro en hen
  rcases mem_pinsert p k v d en hen with h1 | h2
  · rw [h1]; exact hv
  · exact h en h2

theorem psubinv_pupdate (p : Pending SubmissionInfo) (k : MatchKey)
    (v : SubmissionInfo) (h : PSubInv p) (hv : earlyBuffered v) :
    PSubInv (pupdate p k v) := by
  intro en hen
  rcases mem_pupdate p k v en hen with h1 | h2
  · unfold earlyBuffered
    rw [h1]
    exact hv
  · exact h en h2

/-- `doCampaignEvent` preserves the early-buffer invariant: it only ever
appends an early campaign event to an existing submitted entry. -/
theorem doCampaignEvent_subinv (e : PostAuctionEvent) (s : MState)
    (h : SubInvariant s) : SubInvariant (doCampaignEvent e s).1 := by
  simp only [doCampaignEvent]
  repeat' split
  all_goals first
    | exact h
    | (intro en hen
       rcases mem_pupdate _ _ _ en hen with h1 | h2
       · unfold earlyBuffered
         rw [h1]
         intro _
         exact Or.inr (by simp)
       · exact h en h2)

theorem replayCampaignEvents_subinv (evs : List PostAuctionEvent) (s : MState)
    (h : SubInvariant s) : SubInvariant (replayCampaignEvents evs s).1 := by
  induction evs generalizing s with
  | nil => exact h
  | cons e es ih =>
    unfold replayCampaignEvents
    have h1 := doCampaignEvent_subinv e s h
    rcases hd : doCampaignEvent e s with ⟨s1, err⟩
    rw [hd] at h1
    cases err with
    | none => exact ih s1 h1
    | some msg => exact h1

set_option maxHeartbeats 1000000 in
/-- `doWinLoss` preserves the early-buffer invariant. -/
theorem doWinLoss_subinv (now : Date) (e : PostAuctionEvent) (isReplay : Bool)
    (s : MState) (h : SubInvariant s) : SubInvariant (doWinLoss now e isReplay s).1 := by
  simp only [doWinLoss]
  split
  next infoF heqF =>
    repeat' split
    all_goals (intro en hen; refine h en ?_; simpa only [ite_pair_fst, ite_submitted, pushOutcome_submitted, pushBanker_submitted, recordHit_submitted, ite_self] using hen)
  next heqF =>
    split
    · split
      · simp only [ite_submitted, recordHit_submitted, pushBanker_submitted,
          pushOutcome_submitted, ite_self]
        apply psubinv_pinsert _ _ _ _ h
        intro _
        exact Or.inl (by simp)
      · split
        · intro en hen
          refine h en ?_
          simpa only [ite_pair_fst, ite_submitted, pushOutcome_submitted, pushBanker_submitted, recordHit_submitted, ite_self] using hen
        · intro en hen
          refine h en ?_
          simpa only [ite_pair_fst, ite_submitted, pushOutcome_submitted, pushBanker_submitted, recordHit_submitted, ite_self] using hen
    · next infoS heqS =>
      split
      · simp only [ite_submitted, recordHit_submitted, pushBanker_submitted,
          pushOutcome_submitted, ite_self]
        apply psubinv_pinsert _ _ _ _ (psubinv_premove _ _ h)
        intro _
        exact Or.inl (by simp)
      · split
        next s1 err heqD =>
          have h0 := congrArg (fun x => x.1.submitted) heqD
          simp only at h0
          rw [doBidResult_submitted_eq] at h0
          simp only [ite_submitted, recordHit_submitted, ite_self] at h0
          intro en hen
          rw [show s1.submitted = premove s.submitted (e.auctionId, e.adSpotId) from h0.symm] at hen
          exact psubinv_premove _ _ h en hen
        next s1 heqD =>
          have h0 := congrArg (fun x => x.1.submitted) heqD
          simp only at h0
          rw [doBidResult_submitted_eq] at h0
          simp only [ite_submitted, recordHit_submitted, ite_self] at h0
          have hs1 : SubInvariant s1 := by
            intro en hen
            rw [show s1.submitted = premove s.submitted (e.auctionId, e.adSpotId) from h0.symm] at hen
            exact psubinv_premove _ _ h en hen
          exact replayCampaignEvents_subinv infoS.earlyCampaignEvents s1 hs1

theorem replayEarlyWins_subinv (now : Date) (evs : List PostAuctionEvent) (s : MState)
    (h : SubInvariant s) : SubInvariant (replayEarlyWins now evs s).1 := by
  induction evs generalizing s with
  | nil => exact h
  | cons e es ih =>
    simp only [replayEarlyWins]
    have h1 := doWinLoss_subinv now e true (recordHit s "replayedEarlyWinEvent") h
    rcases hd : doWinLoss now e true (recordHit s "replayedEarlyWinEvent") with ⟨s1, err⟩
    rw [hd] at h1
    cases err with
    | none => exact ih s1 h1
    | some msg => exact h1

/-- `doAuction` preserves the early-buffer invariant (it always stores a
present bid request). -/
theorem doAuction_subinv (now : Date) (e : SubmittedAuctionEvent) (s : MState)
    (h : SubInvariant s) : SubInvariant (doAuction now e s) := by
  simp only [doAuction]
  split
  next prior heqP =>
    apply replayEarlyWins_subinv
    apply psubinv_pinsert _ _ _ _ (psubinv_premove _ _ h)
    intro habs
    cases habs
  next heqP =>
    apply replayEarlyWins_subinv
    apply psubinv_pinsert _ _ _ _ h
    intro habs
    cases habs

theorem sweepSubmittedEntry_submitted (now : Date) (en : PEntry SubmissionInfo)
    (s : MState) : (sweepSubmittedEntry now en s).submitted = s.submitted := by
  simp only [sweepSubmittedEntry]
  split
  · simp
  · split
    next s1 heqD =>
      have h0 := congrArg (fun x => x.1.submitted) heqD
      simp only at h0
      rw [doBidResult_submitted_eq] at h0
      simp [← h0]
    next s1 msg heqD =>
      have h0 := congrArg (fun x => x.1.submitted) heqD
      simp only at h0
      rw [doBidResult_submitted_eq] at h0
      simp [← h0]

/-- `checkExpiredAuctions` preserves the early-buffer invariant. -/
theorem checkExpiredAuctions_subinv (now : Date) (s : MState)
    (h : SubInvariant s) : SubInvariant (checkExpiredAuctions now s) := by
  simp only [checkExpiredAuctions]
  have hlive : PSubInv (liveOf s.submitted now) := by
    intro en hen
    exact h en (List.mem_filter.mp hen).1
  have hfold : ∀ (l : Pending SubmissionInfo) (t : MState), SubInvariant t →
      SubInvariant (l.foldl (fun acc e => sweepSubmittedEntry now e acc) t) := by
    intro l
    induction l with
    | nil => intro t ht; exact ht
    | cons x xs ih =>
      intro t ht
      apply ih
      intro en hen
      rw [sweepSubmittedEntry_submitted] at hen
      exact ht en hen
  have hfold2 : ∀ (l : Pending FinishedInfo) (t : MState), SubInvariant t →
      SubInvariant (l.foldl (fun acc _ => recordHit acc "finishedAuctionExpiry") t) := by
    intro l
    induction l with
    | nil => intro t ht; exact ht
    | cons x xs ih =>
      intro t ht
      apply ih
      intro en hen
      exact ht en hen
  intro en hen
  refine hfold2 _ _ (fun en2 hen2 => ?_) en hen
  refine hfold _ _ (fun en3 hen3 => hlive en3 hen3) en2 hen2

/-- A win/loss notification that finds a submitted entry without a bid
request only buffers the event: no banker operation, no error. -/
theorem doWinLoss_buffer_no_banker
    (now : Date) (e : PostAuctionEvent) (isReplay : Bool) (s : MState)
    (info : SubmissionInfo)
    (hfin : pget s.finished (e.auctionId, e.adSpotId) = none)
    (hsub : pget s.submitted (e.auctionId, e.adSpotId) = some info)
    (hbr : info.bidRequest = none) :
    (doWinLoss now e isReplay s).2 = none ∧
    (doWinLoss now e isReplay s).1.banker = s.banker := by
  unfold doWinLoss
  simp only [ite_finished, ite_submitted, ite_banker, recordHit_finished, recordHit_submitted,
    recordHit_banker, ite_self, hfin, hsub, hbr]
  simp

/-- The sweeper's per-entry body performs no banker operation on an entry
without a bid request. -/
theorem sweepSubmittedEntry_no_banker
    (now : Date) (en : PEntry SubmissionInfo) (s : MState)
    (hbr : en.val.bidRequest = none) :
    (sweepSubmittedEntry now en s).banker = s.banker := by
  simp only [sweepSubmittedEntry, hbr]
  simp

theorem pcontains_eq_isSome_pget {V : Type} (p : Pending V) (k : MatchKey) :
    pcontains p k = (pget p k).isSome := by
  unfold pcontains pget
  cases plookup p k <;> rfl

theorem pcontains_iff_exists {V : Type} (p : Pending V) (k : MatchKey) :
    pcontains p k = true ↔ ∃ en ∈ p, en.key = k := by
  induction p with
  | nil => simp [pcontains, plookup]
  | cons e es ih =>
    by_cases he : e.key = k
    · simp only [pcontains, plookup, if_pos he, Option.isSome_some]
      constructor
      · intro _
        exact ⟨e, List.mem_cons_self _ _, he⟩
      · intro _
        trivial
    · simp only [pcontains, plookup, if_neg he]
      rw [show ((plookup es k).isSome = true) = (pcontains es k = true) from rfl, ih]
      constructor
      · rintro ⟨en, hen, hk⟩
        exact ⟨en, List.mem_cons_of_mem _ hen, hk⟩
      · rintro ⟨en, hen, hk⟩
        rcases List.mem_cons.mp hen with h1 | h2
        · exact absurd (h1 ▸ hk) he
        · exact ⟨en, h2, hk⟩

theorem mem_insertByExpiry {V : Type} (x : PEntry V) (l : Pending V) (en : PEntry V)
    (h : en ∈ insertByExpiry x l) : en = x ∨ en ∈ l := by
  induction l with
  | nil => simpa [insertByExpiry] using h
  | cons y ys ih =>
    unfold insertByExpiry at h
    split at h
    · rcases List.mem_cons.mp h with h1 | h2
      · exact Or.inl h1
      · exact Or.inr h2
    · rcases List.mem_cons.mp h with h1 | h2
      · exact Or.inr (h1 ▸ List.mem_cons_self _ _)
      · rcases ih h2 with h3 | h3
        · exact Or.inl h3
        · exact Or.inr (List.mem_cons_of_mem _ h3)

theorem mem_sortByExpiry {V : Type} (l : Pending V) (en : PEntry V)
    (h : en ∈ sortByExpiry l) : en ∈ l := by
  have hgen : ∀ (m : Pending V) (acc : Pending V),
      en ∈ m.foldl (fun a e => insertByExpiry e a) acc → en ∈ m ∨ en ∈ acc := by
    intro m
    induction m with
    | nil => intro acc h2; exact Or.inr h2
    | cons y ys ih =>
      intro acc h2
      rcases ih (insertByExpiry y acc) h2 with h3 | h3
      · exact Or.inl (List.mem_cons_of_mem _ h3)
      · rcases mem_insertByExpiry y acc en h3 with h4 | h4
        · exact Or.inl (h4 ▸ List.mem_cons_self _ _)
        · exact Or.inr h4
  rcases hgen l [] h with h1 | h2
  · exact h1
  · cases h2

theorem pcontains_filter_false {V : Type} (p : Pending V) (f : PEntry V → Bool)
    (k : MatchKey) (h : pcontains p k = false) : pcontains (p.filter f) k = false := by
  cases hb : pcontains (p.filter f) k with
  | false => rfl
  | true =>
    rw [pcontains_iff_exists] at hb
    obtain ⟨en, hen, hk⟩ := hb
    have h2 : pcontains p k = true :=
      (pcontains_iff_exists p k).mpr ⟨en, (List.mem_filter.mp hen).1, hk⟩
    rw [h] at h2
    cases h2

theorem pcontains_filter_le {V : Type} (p : Pending V) (f : PEntry V → Bool)
    (k : MatchKey) (h : pcontains (p.filter f) k = true) : pcontains p k = true := by
  rw [pcontains_iff_exists] at h
  obtain ⟨en, hen, hk⟩ := h
  exact (pcontains_iff_exists p k).mpr ⟨en, (List.mem_filter.mp hen).1, hk⟩

theorem nodup_key_unique {V : Type} (p : Pending V) (h : PKeysNodup p)
    (en1 en2 : PEntry V) (h1 : en1 ∈ p) (h2 : en2 ∈ p) (hk : en1.key = en2.key) :
    en1 = en2 :=
  List.inj_on_of_nodup_map h h1 h2 hk

/-- `doCampaignEvent` never adds or removes keys in either map. -/
theorem doCampaignEvent_contains (e : PostAuctionEvent) (s : MState) (k : MatchKey) :
    pcontains (doCampaignEvent e s).1.submitted k = pcontains s.submitted k ∧
    pcontains (doCampaignEvent e s).1.finished k = pcontains s.finished k := by
  simp only [doCampaignEvent]
  repeat' split
  all_goals exact ⟨by simp [pcontains_pupdate], by simp [pcontains_pupdate]⟩

theorem replayCampaignEvents_contains (evs : List PostAuctionEvent) (s : MState)
    (k : MatchKey) :
    pcontains (replayCampaignEvents evs s).1.submitted k = pcontains s.submitted k ∧
    pcontains (replayCampaignEvents evs s).1.finished k = pcontains s.finished k := by
  induction evs generalizing s with
  | nil => exact ⟨rfl, rfl⟩
  | cons e es ih =>
    unfold replayCampaignEvents
    have h1 := doCampaignEvent_contains e s k
    rcases hd : doCampaignEvent e s with ⟨s1, err⟩
    rw [hd] at h1
    cases err with
    | none =>
      obtain ⟨ha, hb⟩ := ih s1
      exact ⟨ha.trans h1.1, hb.trans h1.2⟩
    | some msg => exact h1

set_option maxHeartbeats 1000000 in
/-- `doWinLoss` preserves mutual exclusivity of the two pending maps. -/
theorem doWinLoss_excl (now : Date) (e : PostAuctionEvent) (isReplay : Bool)
    (s : MState) (h : MapsExclusive s) : MapsExclusive (doWinLoss now e isReplay s).1 := by
  simp only [doWinLoss, ite_finished, ite_submitted, recordHit_finished, recordHit_submitted,
    ite_self]
  split
  next infoF heqF =>
    repeat' split
    all_goals (intro k hk; simp only [ite_pair_fst, ite_submitted, ite_finished, pushOutcome_submitted, pushOutcome_finished, pushBanker_submitted, pushBanker_finished, recordHit_submitted, recordHit_finished, ite_self] at hk ⊢)
    all_goals first
      | exact h k hk
      | (rw [pcontains_pupdate]; exact h k hk)
  next heqF =>
    have hfc : pcontains s.finished (e.auctionId, e.adSpotId) = false := by
      rw [pcontains_eq_isSome_pget, heqF]
      rfl
    split
    · split
      · -- early insert into submitted
        intro k hk
        simp only [ite_pair_fst, ite_submitted, ite_finished, pushBanker_submitted,
          pushBanker_finished, recordHit_submitted, recordHit_finished, ite_self] at hk ⊢
        rw [pcontains_pinsert] at hk
        by_cases hke : (e.auctionId, e.adSpotId) = k
        · rw [← hke]
          exact hfc
        · rw [if_neg hke] at hk
          exact h k hk
      · split
        all_goals (intro k hk; simp only [ite_pair_fst, ite_submitted, ite_finished, pushBanker_submitted, pushBanker_finished, recordHit_submitted, recordHit_finished, ite_self] at hk ⊢; exact h k hk)
    · next infoS heqS =>
      split
      · -- buffered early win: reinsert under the same key
        intro k hk
        simp only [ite_pair_fst, ite_submitted, ite_finished, pushBanker_submitted,
          pushBanker_finished, recordHit_submitted, recordHit_finished, ite_self] at hk ⊢
        rw [pcontains_pinsert] at hk
        by_cases hke : (e.auctionId, e.adSpotId) = k
        · rw [← hke]
          exact hfc
        · rw [if_neg hke, pcontains_premove, if_neg hke] at hk
          exact h k hk
      · split
        next s1 err heqD =>
          intro k hk
          have hsub := congrArg (fun x => x.1.submitted) heqD
          simp only at hsub
          rw [doBidResult_submitted_eq] at hsub
          simp only [ite_submitted, recordHit_submitted, ite_self] at hsub
          rw [show s1.submitted = premove s.submitted (e.auctionId, e.adSpotId) from hsub.symm,
            pcontains_premove] at hk
          by_cases hke : (e.auctionId, e.adSpotId) = k
          · rw [if_pos hke] at hk
            cases hk
          · rw [if_neg hke] at hk
            have hfin := congrArg (fun x => pget x.1.finished k) heqD
            simp only at hfin
            rw [doBidResult_finished_other _ _ _ _ _ _ _ _ _ _ _ k hke] at hfin
            simp only [ite_finished, recordHit_finished, ite_self] at hfin
            show pcontains s1.finished k = false
            rw [pcontains_eq_isSome_pget, ← hfin, ← pcontains_eq_isSome_pget]
            exact h k hk
        next s1 heqD =>
          intro k hk
          have hsub := congrArg (fun x => x.1.submitted) heqD
          simp only at hsub
          rw [doBidResult_submitted_eq] at hsub
          simp only [ite_submitted, recordHit_submitted, ite_self] at hsub
          obtain ⟨hrs, hrf⟩ := replayCampaignEvents_contains infoS.earlyCampaignEvents s1 k
          rw [hrs] at hk
          rw [show s1.submitted = premove s.submitted (e.auctionId, e.adSpotId) from hsub.symm,
            pcontains_premove] at hk
          by_cases hke : (e.auctionId, e.adSpotId) = k
          · rw [if_pos hke] at hk
            cases hk
          · rw [if_neg hke] at hk
            have hfin := congrArg (fun x => pget x.1.finished k) heqD
            simp only at hfin
            rw [doBidResult_finished_other _ _ _ _ _ _ _ _ _ _ _ k hke] at hfin
            simp only [ite_finished, recordHit_finished, ite_self] at hfin
            rw [hrf, pcontains_eq_isSome_pget, ← hfin, ← pcontains_eq_isSome_pget]
            exact h k hk

theorem replayEarlyWins_excl (now : Date) (evs : List PostAuctionEvent) (s : MState)
    (h : MapsExclusive s) : MapsExclusive (replayEarlyWins now evs s).1 := by
  induction evs generalizing s with
  | nil => exact h
  | cons e es ih =>
    simp only [replayEarlyWins]
    have h1 := doWinLoss_excl now e true (recordHit s "replayedEarlyWinEvent") h
    rcases hd : doWinLoss now e true (recordHit s "replayedEarlyWinEvent") with ⟨s1, err⟩
    rw [hd] at h1
    cases err with
    | none => exact ih s1 h1
    | some msg => exact h1

/-- `doAuction` preserves mutual exclusivity provided its key is not
already finished. -/
theorem doAuction_excl (now : Date) (e : SubmittedAuctionEvent) (s : MState)
    (h : MapsExclusive s)
    (hfc : pcontains s.finished (e.auctionId, e.adSpotId) = false) :
    MapsExclusive (doAuction now e s) := by
  simp only [doAuction]
  split
  next prior heqP =>
    apply replayEarlyWins_excl
    intro k hk
    simp only [pushBanker_submitted, pushBanker_finished, recordHit_submitted,
      recordHit_finished] at hk ⊢
    rw [pcontains_pinsert] at hk
    by_cases hke : (e.auctionId, e.adSpotId) = k
    · rw [← hke]
      exact hfc
    · rw [if_neg hke, pcontains_premove, if_neg hke] at hk
      exact h k hk
  next heqP =>
    apply replayEarlyWins_excl
    intro k hk
    simp only [pushBanker_submitted, pushBanker_finished, recordHit_submitted,
      recordHit_finished] at hk ⊢
    rw [pcontains_pinsert] at hk
    by_cases hke : (e.auctionId, e.adSpotId) = k
    · rw [← hke]
      exact hfc
    · rw [if_neg hke] at hk
      exact h k hk

theorem sweepSubmittedEntry_finished_contains (now : Date) (en : PEntry SubmissionInfo)
    (t : MState) (k : MatchKey) (hne : en.key ≠ k) :
    pcontains (sweepSubmittedEntry now en t).finished k = pcontains t.finished k := by
  simp only [sweepSubmittedEntry]
  split
  · simp
  · split
    next s1 heqD =>
      have hfin := congrArg (fun x => pget x.1.finished k) heqD
      simp only at hfin
      rw [doBidResult_finished_other _ _ _ _ _ _ _ _ _ _ _ k hne] at hfin
      simp only [recordHit_finished] at hfin
      rw [pcontains_eq_isSome_pget, pcontains_eq_isSome_pget, ← hfin]
    next s1 msg heqD =>
      have hfin := congrArg (fun x => pget x.1.finished k) heqD
      simp only at hfin
      rw [doBidResult_finished_other _ _ _ _ _ _ _ _ _ _ _ k hne] at hfin
      simp only [recordHit_finished] at hfin
      simp only [pcontains_eq_isSome_pget, recordErr_finished]
      rw [← hfin]

theorem sweepFold_submitted (now : Date) (l : Pending SubmissionInfo) (t : MState) :
    (l.foldl (fun acc en => sweepSubmittedEntry now en acc) t).submitted = t.submitted := by
  induction l generalizing t with
  | nil => rfl
  | cons x xs ih =>
    show (xs.foldl _ (sweepSubmittedEntry now x t)).submitted = t.submitted
    rw [ih (sweepSubmittedEntry now x t), sweepSubmittedEntry_submitted]

theorem sweepFold_finished_false (now : Date) (l : Pending SubmissionInfo) (t : MState)
    (k : MatchKey) (hk : pcontains t.finished k = false) (hl : ∀ en ∈ l, en.key ≠ k) :
    pcontains (l.foldl (fun acc en => sweepSubmittedEntry now en acc) t).finished k = false := by
  induction l generalizing t with
  | nil => exact hk
  | cons x xs ih =>
    show pcontains (xs.foldl _ (sweepSubmittedEntry now x t)).finished k = false
    apply ih
    · rw [sweepSubmittedEntry_finished_contains now x t k (hl x (List.mem_cons_self _ _))]
      exact hk
    · intro en hen
      exact hl en (List.mem_cons_of_mem _ hen)

theorem hitFold_submitted (c : String) (l : Pending FinishedInfo) (t : MState) :
    (l.foldl (fun acc (_ : PEntry FinishedInfo) => recordHit acc c) t).submitted =
      t.submitted := by
  induction l generalizing t with
  | nil => rfl
  | cons x xs ih =>
    show (xs.foldl _ (recordHit t c)).submitted = t.submitted
    rw [ih (recordHit t c), recordHit_submitted]

theorem hitFold_finished (c : String) (l : Pending FinishedInfo) (t : MState) :
    (l.foldl (fun acc (_ : PEntry FinishedInfo) => recordHit acc c) t).finished =
      t.finished := by
  induction l generalizing t with
  | nil => rfl
  | cons x xs ih =>
    show (xs.foldl _ (recordHit t c)).finished = t.finished
    rw [ih (recordHit t c), recordHit_finished]

/-- After a sweep the submitted map holds exactly the entries that had not
yet expired. -/
theorem checkExpired_submitted (now : Date) (s : MState) :
    (checkExpiredAuctions now s).submitted = liveOf s.submitted now := by
  simp only [checkExpiredAuctions]
  rw [pushBanker_submitted, hitFold_submitted]
  simp only [sweepFold_submitted]

/-- `checkExpiredAuctions` preserves mutual exclusivity on well-formed
submitted maps. -/
theorem checkExpiredAuctions_excl (now : Date) (s : MState)
    (h : MapsExclusive s) (hnd : PKeysNodup s.submitted) :
    MapsExclusive (checkExpiredAuctions now s) := by
  intro k hk
  rw [checkExpired_submitted] at hk
  obtain ⟨enL, henL, hkL⟩ := (pcontains_iff_exists _ k).mp hk
  have henL2 := List.mem_filter.mp henL
  have hsub : pcontains s.submitted k = true :=
    (pcontains_iff_exists _ k).mpr ⟨enL, henL2.1, hkL⟩
  have hexpired : ∀ en ∈ sortByExpiry (expiredOf s.submitted now), en.key ≠ k := by
    intro en hen hcontra
    have hen2 := List.mem_filter.mp (mem_sortByExpiry _ en hen)
    have : en = enL := nodup_key_unique s.submitted hnd en enL hen2.1 henL2.1
      (hcontra.trans hkL.symm)
    rw [this] at hen2
    have h1 := of_decide_eq_true hen2.2
    have h2 := of_decide_eq_true henL2.2
    exact absurd h2 (not_lt.mpr h1)
  simp only [checkExpiredAuctions]
  rw [pushBanker_finished, hitFold_finished]
  apply pcontains_filter_false
  apply sweepFold_finished_false
  · exact h k hsub
  · exact hexpired

theorem doBidResult_banker_mono
    (now : Date) (auctionId adSpotId : Ident) (sub : SubmissionInfo)
    (winPrice : Amount) (ts : Date) (status : BidStatus) (conf : Confidence)
    (meta : String) (uids : List Nat) (s : MState) :
    ∃ d, (doBidResult now auctionId adSpotId sub winPrice ts status conf meta uids s).1.banker
      = s.banker ++ d := by
  simp only [doBidResult]
  split
  · exact ⟨[], by simp⟩
  · split
    · exact ⟨[], by simp⟩
    next br heqbr =>
      split
      · exact ⟨[], by simp⟩
      · split
        · exact ⟨[.cancelBid sub.bid.account (makeBidId auctionId adSpotId sub.bid.agent)],
            by simp⟩
        · split
          · exact ⟨[.winBid sub.bid.account (makeBidId auctionId adSpotId sub.bid.agent)
              (sub.bid.wcm (findAdSpotIndex br adSpotId) meta winPrice)], by simp⟩
          · exact ⟨[.cancelBid sub.bid.account (makeBidId auctionId adSpotId sub.bid.agent)],
              by simp⟩

theorem sweepSubmittedEntry_banker_mono (now : Date) (en : PEntry SubmissionInfo)
    (t : MState) : ∃ d, (sweepSubmittedEntry now en t).banker = t.banker ++ d := by
  simp only [sweepSubmittedEntry]
  split
  · exact ⟨[], by simp⟩
  next br heqbr =>
    obtain ⟨d, hd⟩ := doBidResult_banker_mono now en.key.1 en.key.2 en.val 0 now .bs_loss
      .inferred "null" [] (recordHit t "submittedAuctionExpiry")
    simp only [recordHit_banker] at hd
    split
    next s1 heqD =>
      have h0 := congrArg (fun x => x.1.banker) heqD
      simp only at h0
      exact ⟨d, by rw [← h0]; exact hd⟩
    next s1 msg heqD =>
      have h0 := congrArg (fun x => x.1.banker) heqD
      simp only at h0
      exact ⟨d, by simp only [recordErr_banker]; rw [← h0]; exact hd⟩

theorem sweepFold_banker_mono (now : Date) (l : Pending SubmissionInfo) (t : MState) :
    ∃ d, (l.foldl (fun acc en => sweepSubmittedEntry now en acc) t).banker = t.banker ++ d := by
  induction l generalizing t with
  | nil => exact ⟨[], by simp⟩
  | cons x xs ih =>
    obtain ⟨d1, h1⟩ := sweepSubmittedEntry_banker_mono now x t
    obtain ⟨d2, h2⟩ := ih (sweepSubmittedEntry now x t)
    refine ⟨d1 ++ d2, ?_⟩
    show (xs.foldl _ (sweepSubmittedEntry now x t)).banker = t.banker ++ (d1 ++ d2)
    rw [h2, h1, List.append_assoc]

theorem hitFold_banker (c : String) (l : Pending FinishedInfo) (t : MState) :
    (l.foldl (fun acc (_ : PEntry FinishedInfo) => recordHit acc c) t).banker = t.banker := by
  induction l generalizing t with
  | nil => rfl
  | cons x xs ih =>
    show (xs.foldl _ (recordHit t c)).banker = t.banker
    rw [ih (recordHit t c), recordHit_banker]

/-- On the inferred-loss path (present bid request, valid spot and
account, not a no-bid) `doBidResult` succeeds and inserts a finished entry
under its own key expiring at `now + auctionTimeout`. -/
theorem doBidResult_loss_shape
    (now : Date) (auctionId adSpotId : Ident) (sub : SubmissionInfo)
    (winPrice : Amount) (ts : Date) (conf : Confidence) (meta : String)
    (uids : List Nat) (s : MState) (br : BidRequest)
    (hsp : adSpotId ≠ 0) (hbr : sub.bidRequest = some br)
    (hacc : sub.bid.account ≠ [])
    (hnb : ¬(sub.bid.price.maxPrice = 0 ∧ sub.bid.price.priority = 0)) :
    (doBidResult now auctionId adSpotId sub winPrice ts .bs_loss conf meta uids s).2 = none ∧
    (doBidResult now auctionId adSpotId sub winPrice ts .bs_loss conf meta uids s).1.finished
      = pinsert s.finished (auctionId, adSpotId)
          (finishedInfoOf auctionId adSpotId (findAdSpotIndex br adSpotId) sub .bs_loss
            winPrice winPrice ts meta uids)
          (now + s.cfg.auctionTimeout) := by
  unfold doBidResult
  rw [if_neg hsp]
  simp only [hbr]
  rw [if_neg hacc]
  split
  · next hnb2 => exact absurd hnb2 hnb
  · constructor
    · simp
    · simp

/-- On the winning path (present bid request, valid spot and account, not
a no-bid) `doBidResult` succeeds and inserts a WIN finished entry under
its own key expiring at `now + winTimeout`. -/
theorem doBidResult_win_shape
    (now : Date) (auctionId adSpotId : Ident) (sub : SubmissionInfo)
    (winPrice : Amount) (ts : Date) (conf : Confidence) (meta : String)
    (uids : List Nat) (s : MState) (br : BidRequest)
    (hsp : adSpotId ≠ 0) (hbr : sub.bidRequest = some br)
    (hacc : sub.bid.account ≠ [])
    (hnb : ¬(sub.bid.price.maxPrice = 0 ∧ sub.bid.price.priority = 0)) :
    (doBidResult now auctionId adSpotId sub winPrice ts .bs_win conf meta uids s).2 = none ∧
    (doBidResult now auctionId adSpotId sub winPrice ts .bs_win conf meta uids s).1.finished
      = pinsert s.finished (auctionId, adSpotId)
          (finishedInfoOf auctionId adSpotId (findAdSpotIndex br adSpotId) sub .bs_win
            (sub.bid.wcm (findAdSpotIndex br adSpotId) meta winPrice) winPrice ts meta uids)
          (now + s.cfg.winTimeout) := by
  unfold doBidResult
  rw [if_neg hsp]
  simp only [hbr]
  rw [if_neg hacc]
  split
  · next hnb2 => exact absurd hnb2 hnb
  · constructor
    · simp
    · simp

/-- A WIN notification that finds a finished-free key with a complete
submission (no buffered campaign events) commits the win and records the
WIN finished entry. -/
theorem doWinLoss_delivers_win
    (now : Date) (e : PostAuctionEvent) (isReplay : Bool) (s2 s3 : MState)
    (err : Option String) (info : SubmissionInfo) (br : BidRequest)
    (heq : doWinLoss now e isReplay s2 = (s3, err))
    (htype : e.type = .pae_win)
    (hfin : pget s2.finished (e.auctionId, e.adSpotId) = none)
    (hsub : pget s2.submitted (e.auctionId, e.adSpotId) = some info)
    (hbr : info.bidRequest = some br)
    (hsp : e.adSpotId ≠ 0)
    (hacc : info.bid.account ≠ [])
    (hnb : ¬(info.bid.price.maxPrice = 0 ∧ info.bid.price.priority = 0))
    (hece : info.earlyCampaignEvents = []) :
    err = none ∧
    pget s3.finished (e.auctionId, e.adSpotId) =
      some (finishedInfoOf e.auctionId e.adSpotId (findAdSpotIndex br e.adSpotId) info
        .bs_win (info.bid.wcm (findAdSpotIndex br e.adSpotId) e.metadata e.winPrice)
        e.winPrice e.timestamp e.metadata e.uids) := by
  obtain ⟨hs3, herr⟩ : s3 = (doWinLoss now e isReplay s2).1 ∧
      err = (doWinLoss now e isReplay s2).2 := by
    rw [heq]
    exact ⟨rfl, rfl⟩
  subst hs3
  subst herr
  unfold doWinLoss
  simp only [htype, eq_self_iff_true, if_true, ite_true, ite_finished, ite_submitted,
    recordHit_finished, recordHit_submitted, ite_self, hfin, hsub, hbr]
  split
  next s4 err4 heqD =>
    obtain ⟨ha, hb⟩ := doBidResult_win_shape now e.auctionId e.adSpotId info e.winPrice
      e.timestamp _ e.metadata e.uids _ br hsp hbr hacc hnb
    rw [heqD] at ha
    simp at ha
  next s4 heqD =>
    obtain ⟨ha, hb⟩ := doBidResult_win_shape now e.auctionId e.adSpotId info e.winPrice
      e.timestamp _ e.metadata e.uids _ br hsp hbr hacc hnb
    rw [heqD] at hb
    simp only [ite_finished, recordHit_finished, ite_self] at hb
    rw [hece]
    constructor
    · rfl
    · show pget s4.finished _ = _
      rw [hb]
      exact pget_pinsert_self _ _ _ _

/-- A win or loss arriving before its auction on a fresh key within the
15 s gap is buffered: the finished map is untouched and the submitted map
gains a request-less entry holding the event as an early win. -/
theorem doWinLoss_early_buffer
    (now : Date) (e : PostAuctionEvent) (isReplay : Bool) (s : MState)
    (hfin : pget s.finished (e.auctionId, e.adSpotId) = none)
    (hsub : pget s.submitted (e.auctionId, e.adSpotId) = none)
    (hgap : 1000 * (now - e.bidTimestamp) < 15000) :
    (doWinLoss now e isReplay s).1.finished = s.finished ∧
    pget (doWinLoss now e isReplay s).1.submitted (e.auctionId, e.adSpotId) =
      some { earlyWinEvents := [e] } := by
  unfold doWinLoss
  simp only [ite_finished, ite_submitted, recordHit_finished, recordHit_submitted,
    ite_self, hfin, hsub]
  rw [if_pos hgap]
  constructor
  · simp
  · simp

/-- `doAuction` on a fresh key leaves the finished map untouched and
stores exactly the submission record derived from the event. -/
theorem doAuction_fresh (now : Date) (ev : SubmittedAuctionEvent) (s : MState)
    (hsub : pget s.submitted (ev.auctionId, ev.adSpotId) = none) :
    (doAuction now ev s).finished = s.finished ∧
    pget (doAuction now ev s).submitted (ev.auctionId, ev.adSpotId) =
      some (submissionOf ev) := by
  unfold doAuction
  simp only [recordHit_submitted, hsub, replayEarlyWins]
  constructor
  · simp
  · simp only [pushBanker_submitted, recordHit_submitted, pget_pinsert_self]
    rfl

/-- Replaying a single buffered WIN against a deliverable submission
lands the corresponding WIN entry in the finished map. -/
theorem replayEarlyWins_one_win
    (now : Date) (e : PostAuctionEvent) (t : MState) (info : SubmissionInfo)
    (br : BidRequest)
    (htype : e.type = .pae_win)
    (hfin : pget t.finished (e.auctionId, e.adSpotId) = none)
    (hsub : pget t.submitted (e.auctionId, e.adSpotId) = some info)
    (hbr : info.bidRequest = some br)
    (hsp : e.adSpotId ≠ 0)
    (hacc : info.bid.account ≠ [])
    (hnb : ¬(info.bid.price.maxPrice = 0 ∧ info.bid.price.priority = 0))
    (hece : info.earlyCampaignEvents = []) :
    pget (replayEarlyWins now [e] t).1.finished (e.auctionId, e.adSpotId) =
      some (finishedInfoOf e.auctionId e.adSpotId (findAdSpotIndex br e.adSpotId) info
        .bs_win (info.bid.wcm (findAdSpotIndex br e.adSpotId) e.metadata e.winPrice)
        e.winPrice e.timestamp e.metadata e.uids) := by
  simp only [replayEarlyWins]
  split
  next s4 heqD =>
    obtain ⟨-, hb⟩ := doWinLoss_delivers_win now e true
      (recordHit t "replayedEarlyWinEvent") s4 none info br heqD htype
      (by simpa using hfin) (by simpa using hsub) hbr hsp hacc hnb hece
    exact hb
  next s4 err4 heqD =>
    obtain ⟨ha, -⟩ := doWinLoss_delivers_win now e true
      (recordHit t "replayedEarlyWinEvent") s4 (some err4) info br heqD htype
      (by simpa using hfin) (by simpa using hsub) hbr hsp hacc hnb hece
    simp at ha

/-- `doAuction` on a key whose submitted entry is exactly one buffered
early WIN pops the buffer, stores the event's submission and replays the
WIN, which lands in the finished map. -/
theorem doAuction_replays_early_win
    (now : Date) (ev : SubmittedAuctionEvent) (e : PostAuctionEvent) (t : MState)
    (htype : e.type = .pae_win)
    (heqa : e.auctionId = ev.auctionId)
    (heqs : e.adSpotId = ev.adSpotId)
    (hsub : pget t.submitted (ev.auctionId, ev.adSpotId) = some { earlyWinEvents := [e] })
    (hfin : pget t.finished (ev.auctionId, ev.adSpotId) = none)
    (hsp : ev.adSpotId ≠ 0)
    (hacc : ev.bidResponse.account ≠ [])
    (hnb : ¬(ev.bidResponse.price.maxPrice = 0 ∧ ev.bidResponse.price.priority = 0)) :
    pget (doAuction now ev t).finished (ev.auctionId, ev.adSpotId) =
      some (finishedInfoOf ev.auctionId ev.adSpotId
        (findAdSpotIndex ev.bidRequest ev.adSpotId) (submissionOf ev) .bs_win
        ((submissionOf ev).bid.wcm (findAdSpotIndex ev.bidRequest ev.adSpotId)
          e.metadata e.winPrice)
        e.winPrice e.timestamp e.metadata e.uids) := by
  unfold doAuction
  simp only [recordHit_submitted, hsub]
  rw [← heqa, ← heqs]
  exact replayEarlyWins_one_win now e _ (submissionOf ev) ev.bidRequest htype
    (by rw [heqa, heqs]; simp only [pushBanker_finished, recordHit_finished]; exact hfin)
    (by rw [heqa, heqs];
        simp only [pushBanker_submitted, recordHit_submitted, pget_pinsert_self];
        rfl)
    rfl (by rw [heqs]; exact hsp) hacc hnb rfl

/-! ## Claims -/

/-- C2 counterexample: in `doBidResult`, a no-bid submission (maxPrice 0,
priority 0) raises the fatal per-event exception only after the scoped
release has been armed, so the invocation does perform a banker operation:
the armed release fires and calls `cancelBid` — contradicting the claim
that no banker operation at all is performed. -/
theorem c2_noBid_counterexample :
    (doBidResult 0 1 2 subNoBid 0 0 .bs_loss .inferred "" [] initState).2 =
      some "doBidResult.responseadNoBidPrice" ∧
    (doBidResult 0 1 2 subNoBid 0 0 .bs_loss .inferred "" [] initState).1.banker =
      [.cancelBid ["acct"] "1-2-ag"] := by
  exact ⟨rfl, rfl⟩

/-- C2 (amended): when the submission's bid has maxPrice 0 and priority 0,
`doBidResult` raises a fatal per-event exception, but the exception is
raised after the financial-commit step has armed the scoped release, so
the invocation performs exactly one banker operation — the release's
`cancelBid` — and no `winBid`; no finished entry is inserted, the
submitted map is untouched and no outcome is emitted. -/
theorem c2_noBid_raises_after_release_armed
    (now : Date) (auctionId adSpotId : Ident) (sub : SubmissionInfo)
    (winPrice : Amount) (ts : Date) (status : BidStatus) (conf : Confidence)
    (meta : String) (uids : List Nat) (s : MState) (br : BidRequest)
    (hsp : adSpotId ≠ 0) (hbr : sub.bidRequest = some br)
    (hacc : sub.bid.account ≠ [])
    (hmax : sub.bid.price.maxPrice = 0) (hpri : sub.bid.price.priority = 0) :
    (doBidResult now auctionId adSpotId sub winPrice ts status conf meta uids s).2 =
      some "doBidResult.responseadNoBidPrice" ∧
    (doBidResult now auctionId adSpotId sub winPrice ts status conf meta uids s).1.banker =
      s.banker ++ [.cancelBid sub.bid.account (makeBidId auctionId adSpotId sub.bid.agent)] ∧
    (doBidResult now auctionId adSpotId sub winPrice ts status conf meta uids s).1.finished =
      s.finished ∧
    (doBidResult now auctionId adSpotId sub winPrice ts status conf meta uids s).1.submitted =
      s.submitted ∧
    (doBidResult now auctionId adSpotId sub winPrice ts status conf meta uids s).1.outcomes =
      s.outcomes := by
  unfold doBidResult
  rw [if_neg hsp]
  simp [hbr, hmax, hpri, hacc, pushBanker]

/-- C2 witness: the amended theorem applied at a concrete no-bid input. -/
theorem c2_noBid_raises_after_release_armed_witness :
    (doBidResult 5 1 2 subNoBid 0 5 .bs_loss .inferred "" [] initState).2 =
      some "doBidResult.responseadNoBidPrice" ∧
    (doBidResult 5 1 2 subNoBid 0 5 .bs_loss .inferred "" [] initState).1.banker =
      initState.banker ++
        [.cancelBid subNoBid.bid.account (makeBidId 1 2 subNoBid.bid.agent)] ∧
    (doBidResult 5 1 2 subNoBid 0 5 .bs_loss .inferred "" [] initState).1.finished =
      initState.finished ∧
    (doBidResult 5 1 2 subNoBid 0 5 .bs_loss .inferred "" [] initState).1.submitted =
      initState.submitted ∧
    (doBidResult 5 1 2 subNoBid 0 5 .bs_loss .inferred "" [] initState).1.outcomes =
      initState.outcomes :=
  c2_noBid_raises_after_release_armed 5 1 2 subNoBid 0 5 .bs_loss .inferred "" []
    initState brA (by decide) rfl (by decide) rfl rfl

/-- C1 counterexample: submit an auction, let the sweeper infer a loss
(`cancelBid` fires), then deliver a late WIN (`forceWinBid` fires): two of
the three banker settlement operations are observed for one submitted
auction, contradicting the claimed at-most-one. -/
theorem c1_counterexample :
    ((run [.auction 0 saeA, .sweep 20, .event 30 (winEvtA 30 0 50)] initState).banker.filter
        isSettlement).length = 2 ∧
    ((run [.auction 0 saeA, .sweep 20, .event 30 (winEvtA 30 0 50)] initState).banker.filter
        isCancelBid).length = 1 ∧
    ((run [.auction 0 saeA, .sweep 20, .event 30 (winEvtA 30 0 50)] initState).banker.filter
        isForceWinBid).length = 1 := by
  exact ⟨rfl, rfl, rfl⟩

/-- C1 (amended): per `doBidResult` invocation on a submission with a
present bid request, a non-null ad spot and a non-empty account, exactly
one banker settlement operation is appended, and it is `winBid` or
`cancelBid` (never `forceWinBid`); across a whole event sequence a late
win may additionally trigger `forceWinBid` for the same submission, so
more than one of the three settlement operations can be observed. -/
theorem c1_exactly_one_settlement_per_commit
    (now : Date) (auctionId adSpotId : Ident) (sub : SubmissionInfo)
    (winPrice : Amount) (ts : Date) (status : BidStatus) (conf : Confidence)
    (meta : String) (uids : List Nat) (s : MState) (br : BidRequest)
    (hsp : adSpotId ≠ 0) (hbr : sub.bidRequest = some br)
    (hacc : sub.bid.account ≠ []) :
    ∃ op : BankerOp,
      (doBidResult now auctionId adSpotId sub winPrice ts status conf meta uids s).1.banker
        = s.banker ++ [op] ∧
      isSettlement op = true ∧
      isForceWinBid op = false := by
  unfold doBidResult
  rw [if_neg hsp]
  simp only [hbr]
  rw [if_neg hacc]
  split
  · exact ⟨.cancelBid sub.bid.account (makeBidId auctionId adSpotId sub.bid.agent),
      by simp, rfl, rfl⟩
  · cases status with
    | bs_win =>
      exact ⟨.winBid sub.bid.account (makeBidId auctionId adSpotId sub.bid.agent)
        (sub.bid.wcm (findAdSpotIndex br adSpotId) meta winPrice), by simp, rfl, rfl⟩
    | bs_loss =>
      exact ⟨.cancelBid sub.bid.account (makeBidId auctionId adSpotId sub.bid.agent),
        by simp, rfl, rfl⟩

/-- C1 witness: the amended theorem applied at a concrete winning
submission. -/
theorem c1_exactly_one_settlement_per_commit_witness :
    ∃ op : BankerOp,
      (doBidResult 1 1 2 { bidRequest := some brA, bid := respA } 80 1 .bs_win .guaranteed
          "m" [7] initState).1.banker = initState.banker ++ [op] ∧
      isSettlement op = true ∧
      isForceWinBid op = false :=
  c1_exactly_one_settlement_per_commit 1 1 2 { bidRequest := some brA, bid := respA }
    80 1 .bs_win .guaranteed "m" [7] initState brA (by decide) rfl (by decide)

/-- C10: when a win/loss event for a key present in `submitted` with a bid
request reaches `doBidResult` and the no-bid fatal exception is raised,
the submission has already been popped from the submitted map and no
finished entry is inserted, so the key ends in neither map; no outcome is
emitted and the buffered early campaign events are never replayed (the
pre-event state is not restored on error). -/
theorem c10_noBid_error_drops_submission
    (now : Date) (e : PostAuctionEvent) (isReplay : Bool) (s : MState)
    (info : SubmissionInfo) (br : BidRequest)
    (hfin : pget s.finished (e.auctionId, e.adSpotId) = none)
    (hsub : pget s.submitted (e.auctionId, e.adSpotId) = some info)
    (hbr : info.bidRequest = some br)
    (hsp : e.adSpotId ≠ 0)
    (hacc : info.bid.account ≠ [])
    (hmax : info.bid.price.maxPrice = 0) (hpri : info.bid.price.priority = 0) :
    (doWinLoss now e isReplay s).2 = some "doBidResult.responseadNoBidPrice" ∧
    pget (doWinLoss now e isReplay s).1.submitted (e.auctionId, e.adSpotId) = none ∧
    pget (doWinLoss now e isReplay s).1.finished (e.auctionId, e.adSpotId) = none ∧
    (doWinLoss now e isReplay s).1.outcomes = s.outcomes ∧
    (doWinLoss now e isReplay s).1.numCampaignEvents = s.numCampaignEvents := by
  unfold doWinLoss
  simp only [ite_finished, ite_submitted, ite_banker, ite_outcomes, ite_counters,
    ite_numCampaignEvents, recordHit_finished, recordHit_submitted, recordHit_banker,
    recordHit_outcomes, recordHit_numCampaignEvents, ite_self, hfin, hsub, hbr]
  split
  next s1 err heq =>
    obtain ⟨h1, h2, h3, h4, h5, h6⟩ :=
      doBidResult_noBid_spec now e.auctionId e.adSpotId info e.winPrice e.timestamp
        _ _ e.metadata e.uids _ br hsp hbr hacc hmax hpri
    rw [heq] at h1 h2 h3 h4 h5
    simp only [Option.some.injEq] at h1
    simp at h2 h3 h4 h5
    refine ⟨by simp [h1], ?_, ?_, ?_, ?_⟩
    · simp only
      rw [h2]
      simp [pget]
    · simp only
      rw [h3]
      exact hfin
    · simp only
      rw [h4]
    · simp only
      rw [h5]
  next s1 heq =>
    obtain ⟨h1, h2, h3, h4, h5, h6⟩ :=
      doBidResult_noBid_spec now e.auctionId e.adSpotId info e.winPrice e.timestamp
        _ _ e.metadata e.uids _ br hsp hbr hacc hmax hpri
    rw [heq] at h1
    simp at h1

/-- C10 witness: the theorem applied to a concrete no-bid submission hit
by a WIN event. -/
theorem c10_noBid_error_drops_submission_witness :
    (doWinLoss 1 (winEvtA 1 0 0) false sNoBid).2 = some "doBidResult.responseadNoBidPrice" ∧
    pget (doWinLoss 1 (winEvtA 1 0 0) false sNoBid).1.submitted (1, 2) = none ∧
    pget (doWinLoss 1 (winEvtA 1 0 0) false sNoBid).1.finished (1, 2) = none ∧
    (doWinLoss 1 (winEvtA 1 0 0) false sNoBid).1.outcomes = sNoBid.outcomes ∧
    (doWinLoss 1 (winEvtA 1 0 0) false sNoBid).1.numCampaignEvents = sNoBid.numCampaignEvents :=
  c10_noBid_error_drops_submission 1 (winEvtA 1 0 0) false sNoBid subNoBid brA
    rfl rfl rfl (by decide) (by decide) rfl rfl

/-- C4 counterexample: a duplicate campaign event (same label, already
recorded on the finished entry) does produce an additional outcome through
a sink: an `UnmatchedEvent` with reason `duplicate` is delivered via
`onUnmatchedEvent`, contradicting the claim that no additional outcome is
produced through any sink. -/
theorem c4_counterexample :
    ((doEvent 3 (campEvtA "CLICK" 3)
        (run [.auction 0 saeA, .event 1 (winEvtA 1 0 80), .event 2 (campEvtA "CLICK" 2)]
          initState)).outcomes.filter (outcomeIsUnmatched "duplicate")).length = 1 ∧
    ((run [.auction 0 saeA, .event 1 (winEvtA 1 0 80), .event 2 (campEvtA "CLICK" 2)]
        initState).outcomes.filter (outcomeIsUnmatched "duplicate")).length = 0 := by
  exact ⟨rfl, rfl⟩

/-- C4 (amended): a duplicate WIN for a key finished with a WIN produces
no outcome, no banker call and no map change; only the duplicate counter
(or `duplicateWithDifferentPrice`) is appended.  A duplicate campaign
event likewise leaves maps, banker and matched outcomes untouched and
records the campaign duplicate counter, but it additionally reports an
`UnmatchedEvent` with reason `duplicate` through the unmatched sink. -/
theorem c4_duplicate_events :
    (∀ (now : Date) (e : PostAuctionEvent) (isReplay : Bool) (s : MState) (fi : FinishedInfo),
      pget s.finished (e.auctionId, e.adSpotId) = some fi →
      fi.reportedStatus = .bs_win →
      e.type = .pae_win →
      (doWinLoss now e isReplay s).2 = none ∧
      (doWinLoss now e isReplay s).1.submitted = s.submitted ∧
      (doWinLoss now e isReplay s).1.finished = s.finished ∧
      (doWinLoss now e isReplay s).1.banker = s.banker ∧
      (doWinLoss now e isReplay s).1.outcomes = s.outcomes ∧
      (doWinLoss now e isReplay s).1.counters = s.counters ++
        ["processedWin",
         if isReplay then "bidResult.WIN.messagesReplayed" else "bidResult.WIN.messagesReceived",
         if e.winPrice = fi.winPrice then "bidResult.WIN.duplicate"
         else "bidResult.WIN.duplicateWithDifferentPrice"]) ∧
    (∀ (e : PostAuctionEvent) (s : MState) (spot : Ident) (fi : FinishedInfo),
      e.type = .pae_campaign_event →
      findAuction s.submitted e.auctionId e.adSpotId = none →
      findAuction s.finished e.auctionId e.adSpotId = some (spot, fi) →
      hasCampaignEvent fi.campaignEvents e.label = true →
      s.cfg.hasOnUnmatchedEvent = true →
      (doCampaignEvent e s).2 = none ∧
      (doCampaignEvent e s).1.submitted = s.submitted ∧
      (doCampaignEvent e s).1.finished = s.finished ∧
      (doCampaignEvent e s).1.banker = s.banker ∧
      (doCampaignEvent e s).1.outcomes = s.outcomes ++ [.unmatchedEvent "duplicate" e] ∧
      (doCampaignEvent e s).1.counters = s.counters ++
        ["delivery.EVENT." ++ e.label ++ ".messagesReceived",
         "delivery." ++ e.label ++ ".duplicate"]) := by
  constructor
  · intro now e isReplay s fi hfin hw ht
    unfold doWinLoss
    simp only [ht, ite_finished, ite_submitted, recordHit_finished, recordHit_submitted,
      ite_self, hfin]
    simp [hasWin, hw, paePrint, recordHit]
    split <;> split <;> simp
  · intro e s spot fi ht hsub hfin hdup hsink
    unfold doCampaignEvent
    simp [ht, hsub, hfin, hdup, hsink, recordHit, recordErr, pushOutcome]

/-- C4 witness: the amended theorem applied at a concrete duplicate WIN
(over `sFinWin`) and a concrete duplicate CLICK (over `sFinDup`). -/
theorem c4_duplicate_events_witness :
    ((doWinLoss 2 (winEvtA 2 0 80) false sFinWin).2 = none ∧
     (doWinLoss 2 (winEvtA 2 0 80) false sFinWin).1.submitted = sFinWin.submitted ∧
     (doWinLoss 2 (winEvtA 2 0 80) false sFinWin).1.finished = sFinWin.finished ∧
     (doWinLoss 2 (winEvtA 2 0 80) false sFinWin).1.banker = sFinWin.banker ∧
     (doWinLoss 2 (winEvtA 2 0 80) false sFinWin).1.outcomes = sFinWin.outcomes ∧
     (doWinLoss 2 (winEvtA 2 0 80) false sFinWin).1.counters = sFinWin.counters ++
       ["processedWin",
        if false then "bidResult.WIN.messagesReplayed" else "bidResult.WIN.messagesReceived",
        if (winEvtA 2 0 80).winPrice = fiWinA.winPrice then "bidResult.WIN.duplicate"
        else "bidResult.WIN.duplicateWithDifferentPrice"]) ∧
    ((doCampaignEvent (campEvtA "CLICK" 3) sFinDup).2 = none ∧
     (doCampaignEvent (campEvtA "CLICK" 3) sFinDup).1.submitted = sFinDup.submitted ∧
     (doCampaignEvent (campEvtA "CLICK" 3) sFinDup).1.finished = sFinDup.finished ∧
     (doCampaignEvent (campEvtA "CLICK" 3) sFinDup).1.banker = sFinDup.banker ∧
     (doCampaignEvent (campEvtA "CLICK" 3) sFinDup).1.outcomes = sFinDup.outcomes ++
       [.unmatchedEvent "duplicate" (campEvtA "CLICK" 3)] ∧
     (doCampaignEvent (campEvtA "CLICK" 3) sFinDup).1.counters = sFinDup.counters ++
       ["delivery.EVENT." ++ (campEvtA "CLICK" 3).label ++ ".messagesReceived",
        "delivery." ++ (campEvtA "CLICK" 3).label ++ ".duplicate"]) :=
  ⟨c4_duplicate_events.1 2 (winEvtA 2 0 80) false sFinWin fiWinA rfl rfl rfl,
   c4_duplicate_events.2 (campEvtA "CLICK" 3) sFinDup 2 fiDupA rfl rfl rfl rfl rfl⟩

/-- C9 counterexample: the `onUnmatchedEvent` sink is not optional in the
way the claim states: `recordUnmatched` invokes it without a presence
guard, so a campaign event for an unknown auction processed while that
sink is absent raises a per-event error instead of being processed without
error. -/
theorem c9_counterexample :
    (doCampaignEvent (campEvtA "CLICK" 1) sNoUSink).2 =
      some "doCampaignEvent.unmatchedSinkAbsent" := by
  exact rfl

/-- C9 (amended): `onMatchedWinLoss` and `onMatchedCampaignEvent` are
optional — when absent the corresponding matched outcome is dropped
silently and processing completes without error — but `onUnmatchedEvent`
is invoked unguarded, so any event that reaches an unmatched report while
that sink is absent raises a per-event exception (caught by the
dispatcher). -/
theorem c9_optional_sinks :
    (∀ (now : Date) (auctionId adSpotId : Ident) (sub : SubmissionInfo)
        (winPrice : Amount) (ts : Date) (status : BidStatus) (conf : Confidence)
        (meta : String) (uids : List Nat) (s : MState) (br : BidRequest),
      adSpotId ≠ 0 → sub.bidRequest = some br → sub.bid.account ≠ [] →
      ¬(sub.bid.price.maxPrice = 0 ∧ sub.bid.price.priority = 0) →
      s.cfg.hasOnMatchedWinLoss = false →
      (doBidResult now auctionId adSpotId sub winPrice ts status conf meta uids s).2 = none ∧
      (doBidResult now auctionId adSpotId sub winPrice ts status conf meta uids s).1.outcomes =
        s.outcomes) ∧
    (∀ (e : PostAuctionEvent) (s : MState) (spot : Ident) (fi : FinishedInfo),
      e.type = .pae_campaign_event →
      findAuction s.submitted e.auctionId e.adSpotId = none →
      findAuction s.finished e.auctionId e.adSpotId = some (spot, fi) →
      hasCampaignEvent fi.campaignEvents e.label = false →
      spot ≠ 0 →
      s.cfg.hasOnMatchedCampaignEvent = false →
      (doCampaignEvent e s).2 = none ∧
      (doCampaignEvent e s).1.outcomes = s.outcomes) ∧
    (∀ (e : PostAuctionEvent) (s : MState),
      e.type = .pae_campaign_event →
      findAuction s.submitted e.auctionId e.adSpotId = none →
      findAuction s.finished e.auctionId e.adSpotId = none →
      s.cfg.hasOnUnmatchedEvent = false →
      (doCampaignEvent e s).2 = some "doCampaignEvent.unmatchedSinkAbsent" ∧
      (doCampaignEvent e s).1.outcomes = s.outcomes) := by
  refine ⟨?_, ?_, ?_⟩
  · intro now auctionId adSpotId sub winPrice ts status conf meta uids s br
      hsp hbr hacc hnb hflag
    unfold doBidResult
    rw [if_neg hsp]
    simp only [hbr]
    rw [if_neg hacc]
    cases status <;> simp [hnb, hflag, recordErr, recordHit, pushBanker]
  · intro e s spot fi ht hsub hfin hdup hspot hflag
    unfold doCampaignEvent
    simp [ht, hsub, hfin, hdup, hspot, hflag, recordHit, recordErr]
  · intro e s ht hsub hfin hflag
    unfold doCampaignEvent
    simp [ht, hsub, hfin, hflag, recordHit, recordErr]

/-- C9 witness: the amended theorem applied at a concrete winning commit
with no win/loss sink, a concrete matched campaign event with no campaign
sink, and a concrete orphan campaign event with no unmatched sink. -/
theorem c9_optional_sinks_witness :
    ((doBidResult 1 1 2 { bidRequest := some brA, bid := respA } 80 1 .bs_win .guaranteed
        "m" [7] sNoWLSink).2 = none ∧
     (doBidResult 1 1 2 { bidRequest := some brA, bid := respA } 80 1 .bs_win .guaranteed
        "m" [7] sNoWLSink).1.outcomes = sNoWLSink.outcomes) ∧
    ((doCampaignEvent (campEvtA "CLICK" 4) sNoCESink).2 = none ∧
     (doCampaignEvent (campEvtA "CLICK" 4) sNoCESink).1.outcomes = sNoCESink.outcomes) ∧
    ((doCampaignEvent (campEvtA "CLICK" 5) sNoUSink).2 =
        some "doCampaignEvent.unmatchedSinkAbsent" ∧
     (doCampaignEvent (campEvtA "CLICK" 5) sNoUSink).1.outcomes = sNoUSink.outcomes) :=
  ⟨c9_optional_sinks.1 1 1 2 { bidRequest := some brA, bid := respA } 80 1 .bs_win
      .guaranteed "m" [7] sNoWLSink brA (by decide) rfl (by decide) (by decide) rfl,
   c9_optional_sinks.2.1 (campEvtA "CLICK" 4) sNoCESink 2 fiWinA rfl rfl rfl rfl
      (by decide) rfl,
   c9_optional_sinks.2.2 (campEvtA "CLICK" 5) sNoUSink rfl rfl rfl rfl⟩

/-- C3: the finished map is monotone in reported status: (1) after any
dispatched event, every key that held a WIN entry still holds a WIN entry;
(2) a LOSS notification for a key whose finished entry records a WIN
changes nothing — maps, banker and outcomes are untouched; (3) a WIN
arriving for a key whose finished entry records an inferred LOSS updates
the entry via `forceWin`, calls `banker.forceWinBid` on the stored account
and emits a `MatchedWinLoss` of kind LateWin with confidence Guaranteed. -/
theorem c3_finished_win_monotone :
    (∀ (now : Date) (e : PostAuctionEvent) (s : MState) (key : MatchKey) (fi : FinishedInfo),
      pget s.finished key = some fi → fi.reportedStatus = .bs_win →
      ∃ fi2, pget (doEvent now e s).finished key = some fi2 ∧
        fi2.reportedStatus = .bs_win) ∧
    (∀ (now : Date) (e : PostAuctionEvent) (isReplay : Bool) (s : MState) (fi : FinishedInfo),
      pget s.finished (e.auctionId, e.adSpotId) = some fi →
      fi.reportedStatus = .bs_win → e.type = .pae_loss →
      (doWinLoss now e isReplay s).2 = none ∧
      (doWinLoss now e isReplay s).1.finished = s.finished ∧
      (doWinLoss now e isReplay s).1.submitted = s.submitted ∧
      (doWinLoss now e isReplay s).1.banker = s.banker ∧
      (doWinLoss now e isReplay s).1.outcomes = s.outcomes) ∧
    (∀ (now : Date) (e : PostAuctionEvent) (isReplay : Bool) (s : MState) (fi : FinishedInfo),
      pget s.finished (e.auctionId, e.adSpotId) = some fi →
      fi.reportedStatus = .bs_loss → e.type = .pae_win →
      s.cfg.hasOnMatchedWinLoss = true →
      (doWinLoss now e isReplay s).2 = none ∧
      pget (doWinLoss now e isReplay s).1.finished (e.auctionId, e.adSpotId) =
        some (forceWin fi e.timestamp e.winPrice e.metadata) ∧
      (doWinLoss now e isReplay s).1.banker =
        s.banker ++ [.forceWinBid fi.bid.account e.winPrice] ∧
      (doWinLoss now e isReplay s).1.outcomes = s.outcomes ++
        [.matchedWinLoss .lateWin .guaranteed (forceWin fi e.timestamp e.winPrice e.metadata)
          e.timestamp e.uids]) := by
  refine ⟨?_, ?_, ?_⟩
  · intro now e s key fi h hw
    unfold doEvent
    cases ht : e.type with
    | pae_win => exact doWinLoss_finished_winkeep now e false s key fi h hw
    | pae_loss => exact doWinLoss_finished_winkeep now e false s key fi h hw
    | pae_campaign_event =>
      obtain ⟨fi2, h2, hs2⟩ := doCampaignEvent_finished_status e s key fi h
      exact ⟨fi2, h2, hs2.trans hw⟩
  · intro now e isReplay s fi h hw ht
    unfold doWinLoss
    simp [ht, h, hasWin, hw, paePrint, recordHit]
  · intro now e isReplay s fi h hl ht hflag
    unfold doWinLoss
    simp [ht, h, hasWin, hl, paePrint, recordHit, hflag, pushBanker, pushOutcome,
      pget_pupdate_self s.finished (e.auctionId, e.adSpotId) _ fi h]

/-- C3 witness: the theorem applied at a concrete WIN entry hit by a LOSS
(parts 1 and 2) and a concrete inferred-loss entry hit by a late WIN
(part 3). -/
theorem c3_finished_win_monotone_witness :
    (∃ fi2, pget (doEvent 5 (lossEvtA 5 0 0) sFinWin).finished (1, 2) = some fi2 ∧
       fi2.reportedStatus = .bs_win) ∧
    ((doWinLoss 5 (lossEvtA 5 0 0) false sFinWin).2 = none ∧
     (doWinLoss 5 (lossEvtA 5 0 0) false sFinWin).1.finished = sFinWin.finished ∧
     (doWinLoss 5 (lossEvtA 5 0 0) false sFinWin).1.submitted = sFinWin.submitted ∧
     (doWinLoss 5 (lossEvtA 5 0 0) false sFinWin).1.banker = sFinWin.banker ∧
     (doWinLoss 5 (lossEvtA 5 0 0) false sFinWin).1.outcomes = sFinWin.outcomes) ∧
    ((doWinLoss 30 (winEvtA 30 0 50) false sFinLoss).2 = none ∧
     pget (doWinLoss 30 (winEvtA 30 0 50) false sFinLoss).1.finished
       ((winEvtA 30 0 50).auctionId, (winEvtA 30 0 50).adSpotId) =
       some (forceWin fiLossA (winEvtA 30 0 50).timestamp (winEvtA 30 0 50).winPrice
         (winEvtA 30 0 50).metadata) ∧
     (doWinLoss 30 (winEvtA 30 0 50) false sFinLoss).1.banker =
       sFinLoss.banker ++ [.forceWinBid fiLossA.bid.account (winEvtA 30 0 50).winPrice] ∧
     (doWinLoss 30 (winEvtA 30 0 50) false sFinLoss).1.outcomes = sFinLoss.outcomes ++
       [.matchedWinLoss .lateWin .guaranteed
         (forceWin fiLossA (winEvtA 30 0 50).timestamp (winEvtA 30 0 50).winPrice
           (winEvtA 30 0 50).metadata)
         (winEvtA 30 0 50).timestamp (winEvtA 30 0 50).uids]) :=
  ⟨c3_finished_win_monotone.1 5 (lossEvtA 5 0 0) sFinWin (1, 2) fiWinA rfl rfl,
   c3_finished_win_monotone.2.1 5 (lossEvtA 5 0 0) false sFinWin fiWinA rfl rfl rfl,
   c3_finished_win_monotone.2.2 30 (winEvtA 30 0 50) false sFinLoss fiLossA rfl rfl rfl rfl⟩

/-- C7: a SubmissionInfo stored without a bid request always buffers at
least one early win event or early campaign event — the invariant is
preserved by every step (auction ingestion, event dispatch and expiry
sweep) — and no operation commits to the banker on such an entry before
its auction submission arrives: a win/loss notification finding it only
buffers the event, and the expiry sweep drops it without any banker
call. -/
theorem c7_early_buffer_invariant :
    (∀ (st : Step) (s : MState), SubInvariant s → SubInvariant (runStep s st)) ∧
    (∀ (now : Date) (e : PostAuctionEvent) (isReplay : Bool) (s : MState)
        (info : SubmissionInfo),
      pget s.finished (e.auctionId, e.adSpotId) = none →
      pget s.submitted (e.auctionId, e.adSpotId) = some info →
      info.bidRequest = none →
      (doWinLoss now e isReplay s).2 = none ∧
      (doWinLoss now e isReplay s).1.banker = s.banker) ∧
    (∀ (now : Date) (en : PEntry SubmissionInfo) (s : MState),
      en.val.bidRequest = none →
      (sweepSubmittedEntry now en s).banker = s.banker) := by
  refine ⟨?_, ?_, ?_⟩
  · intro st s h
    cases st with
    | auction now e => exact doAuction_subinv now e s h
    | event now e =>
      show SubInvariant (doEvent now e s)
      unfold doEvent
      split
      · exact doWinLoss_subinv now e false s h
      · exact doWinLoss_subinv now e false s h
      · exact doCampaignEvent_subinv e s h
    | sweep now => exact checkExpiredAuctions_subinv now s h
  · exact doWinLoss_buffer_no_banker
  · exact sweepSubmittedEntry_no_banker

/-- C7 witness: the invariant is preserved on a concrete auction step from
the empty state; a WIN on a concrete request-less buffered entry performs
no banker operation; the sweeper drops a concrete request-less entry with
no banker operation. -/
theorem c7_early_buffer_invariant_witness :
    SubInvariant (runStep initState (.auction 0 saeA)) ∧
    ((doWinLoss 1 (winEvtA 1 0 80) false sEarly).2 = none ∧
     (doWinLoss 1 (winEvtA 1 0 80) false sEarly).1.banker = sEarly.banker) ∧
    (sweepSubmittedEntry 20 ⟨(1, 2), subEarly, 15⟩ initState).banker = initState.banker :=
  ⟨c7_early_buffer_invariant.1 (.auction 0 saeA) initState
      (fun en hen => absurd hen (List.not_mem_nil en)),
   c7_early_buffer_invariant.2.1 1 (winEvtA 1 0 80) false sEarly subEarly rfl rfl rfl,
   c7_early_buffer_invariant.2.2 20 ⟨(1, 2), subEarly, 15⟩ initState rfl⟩

/-- C6 counterexample: `doAuction` does not consult the finished map, so
re-submitting an auction whose key was already finished leaves the key in
both maps at the end of processing that event — the claimed mutual
exclusivity fails. -/
theorem c6_counterexample :
    pcontains (run [.auction 0 saeA, .event 1 (winEvtA 1 0 80), .auction 2 saeA]
      initState).submitted (1, 2) = true ∧
    pcontains (run [.auction 0 saeA, .event 1 (winEvtA 1 0 80), .auction 2 saeA]
      initState).finished (1, 2) = true := by
  exact ⟨rfl, rfl⟩

/-- C6 (amended): mutual exclusivity of `submitted` and `finished` is
preserved by every dispatched win/loss or campaign event, and by the
expiry sweep on well-formed (duplicate-free) maps; `doAuction` preserves
it only when the submitted key is not already finished — a duplicate
submission for a finished key violates it. -/
theorem c6_maps_exclusive_preserved :
    (∀ (now : Date) (e : PostAuctionEvent) (s : MState),
      MapsExclusive s → MapsExclusive (doEvent now e s)) ∧
    (∀ (now : Date) (s : MState),
      MapsExclusive s → PKeysNodup s.submitted →
      MapsExclusive (checkExpiredAuctions now s)) ∧
    (∀ (now : Date) (e : SubmittedAuctionEvent) (s : MState),
      MapsExclusive s → pcontains s.finished (e.auctionId, e.adSpotId) = false →
      MapsExclusive (doAuction now e s)) := by
  refine ⟨?_, ?_, ?_⟩
  · intro now e s h
    unfold doEvent
    split
    · exact doWinLoss_excl now e false s h
    · exact doWinLoss_excl now e false s h
    · intro k hk
      obtain ⟨ha, hb⟩ := doCampaignEvent_contains e s k
      rw [ha] at hk
      rw [hb]
      exact h k hk
  · exact fun now s => checkExpiredAuctions_excl now s
  · exact fun now e s => doAuction_excl now e s

/-- C6 witness: the amended theorem applied to a concrete WIN event, a
concrete sweep and a concrete first-time auction submission. -/
theorem c6_maps_exclusive_preserved_witness :
    MapsExclusive (doEvent 1 (winEvtA 1 0 80) sNoBid) ∧
    MapsExclusive (checkExpiredAuctions 20 sNoBid) ∧
    MapsExclusive (doAuction 0 saeA initState) :=
  ⟨c6_maps_exclusive_preserved.1 1 (winEvtA 1 0 80) sNoBid (fun k _ => rfl),
   c6_maps_exclusive_preserved.2.1 20 sNoBid (fun k _ => rfl) (by decide),
   c6_maps_exclusive_preserved.2.2 0 saeA initState (fun k _ => rfl) rfl⟩

/-- C8: the expiry sweep (1) leaves exactly the unexpired submitted
entries, (2) removes every expired finished entry, (3) ends by asking the
banker to log its bid events, (4) processes an expired submitted entry
with a present bid request by calling `doBidResult` with price 0, the
sweep time, status LOSS and confidence Inferred (meta "null", no uids),
and (5) drops an expired entry without a bid request after recording the
`submittedAuctionExpiryWithoutBid` counter, with no banker commit. -/
theorem c8_sweep_behaviour :
    (∀ (now : Date) (s : MState),
      (checkExpiredAuctions now s).submitted = liveOf s.submitted now) ∧
    (∀ (now : Date) (s : MState) (en : PEntry FinishedInfo),
      en ∈ (checkExpiredAuctions now s).finished → now < en.expiry) ∧
    (∀ (now : Date) (s : MState),
      ∃ ops, (checkExpiredAuctions now s).banker = s.banker ++ ops ++ [.logBidEvents]) ∧
    (∀ (now : Date) (s : MState) (en : PEntry SubmissionInfo) (br : BidRequest),
      s.submitted = [en] → en.expiry ≤ now → en.val.bidRequest = some br →
      en.key.2 ≠ 0 → en.val.bid.account ≠ [] →
      ¬(en.val.bid.price.maxPrice = 0 ∧ en.val.bid.price.priority = 0) →
      (∀ fen ∈ s.finished, now < fen.expiry) → 0 < s.cfg.auctionTimeout →
      checkExpiredAuctions now s = pushBanker
        (doBidResult now en.key.1 en.key.2 en.val 0 now .bs_loss .inferred "null" []
          (recordHit { s with submitted := [] } "submittedAuctionExpiry")).1 .logBidEvents) ∧
    (∀ (now : Date) (s : MState) (en : PEntry SubmissionInfo),
      s.submitted = [en] → en.expiry ≤ now → en.val.bidRequest = none →
      (∀ fen ∈ s.finished, now < fen.expiry) →
      checkExpiredAuctions now s = pushBanker
        (recordHit (recordHit { s with submitted := [] } "submittedAuctionExpiry")
          "submittedAuctionExpiryWithoutBid") .logBidEvents) := by
  refine ⟨checkExpired_submitted, ?_, ?_, ?_, ?_⟩
  · intro now s en hen
    simp only [checkExpiredAuctions, pushBanker_finished, hitFold_finished] at hen
    have h2 := List.mem_filter.mp hen
    exact of_decide_eq_true h2.2
  · intro now s
    obtain ⟨d, hd⟩ := sweepFold_banker_mono now (sortByExpiry (expiredOf s.submitted now))
      { s with submitted := liveOf s.submitted now }
    refine ⟨d, ?_⟩
    simp only [checkExpiredAuctions, pushBanker_banker, hitFold_banker]
    rw [hd]
  · intro now s en br hs hexp hbr hsp hacc hnb hliveF htmo
    have hshape := doBidResult_loss_shape now en.key.1 en.key.2 en.val 0 now .inferred
      "null" [] (recordHit { s with submitted := [] } "submittedAuctionExpiry") br
      hsp hbr hacc hnb
    simp only [recordHit_finished, recordHit_cfg] at hshape
    rcases hD : doBidResult now en.key.1 en.key.2 en.val 0 now .bs_loss .inferred "null" []
      (recordHit { s with submitted := [] } "submittedAuctionExpiry") with ⟨s1, err⟩
    rw [hD] at hshape
    obtain ⟨herr, hfin⟩ := hshape
    simp only at herr hfin
    subst herr
    have hfinLive : ∀ fen ∈ s1.finished, now < fen.expiry := by
      intro fen hfen
      rw [hfin] at hfen
      rcases mem_pinsert _ _ _ _ fen hfen with h1 | h2
      · rw [h1]
        show now < now + s.cfg.auctionTimeout
        exact lt_add_of_pos_right now htmo
      · exact hliveF fen h2
    simp only [checkExpiredAuctions]
    rw [show expiredOf s.submitted now = [en] by
      simp [expiredOf, hs, List.filter, decide_eq_true hexp]]
    rw [show liveOf s.submitted now = [] by
      simp [liveOf, hs, List.filter, decide_eq_false (not_lt.mpr hexp)]]
    rw [show sortByExpiry [en] = [en] from rfl]
    simp only [List.foldl_cons, List.foldl_nil]
    have hsw : sweepSubmittedEntry now en { s with submitted := [] } = s1 := by
      simp only [sweepSubmittedEntry, hbr]
      rw [hD]
    rw [hsw]
    rw [show expiredOf s1.finished now = [] by
      simp only [expiredOf, List.filter_eq_nil_iff]
      intro fen hfen
      simp [decide_eq_false (not_le.mpr (hfinLive fen hfen))]]
    rw [show liveOf s1.finished now = s1.finished by
      simp only [liveOf, List.filter_eq_self]
      intro fen hfen
      exact decide_eq_true (hfinLive fen hfen)]
    rfl
  · intro now s en hs hexp hbr hliveF
    simp only [checkExpiredAuctions]
    rw [show expiredOf s.submitted now = [en] by
      simp [expiredOf, hs, List.filter, decide_eq_true hexp]]
    rw [show liveOf s.submitted now = [] by
      simp [liveOf, hs, List.filter, decide_eq_false (not_lt.mpr hexp)]]
    rw [show sortByExpiry [en] = [en] from rfl]
    have hsw : sweepSubmittedEntry now en { s with submitted := [] } =
        recordHit (recordHit { s with submitted := [] } "submittedAuctionExpiry")
          "submittedAuctionExpiryWithoutBid" := by
      simp only [sweepSubmittedEntry, hbr]
    simp only [List.foldl_cons, List.foldl_nil]
    rw [hsw]
    rw [show expiredOf (recordHit (recordHit { s with submitted := [] }
        "submittedAuctionExpiry") "submittedAuctionExpiryWithoutBid").finished now = [] by
      simp only [recordHit_finished, expiredOf, List.filter_eq_nil_iff]
      intro fen hfen
      simp [decide_eq_false (not_le.mpr (hliveF fen hfen))]]
    rw [show liveOf (recordHit (recordHit { s with submitted := [] }
        "submittedAuctionExpiry") "submittedAuctionExpiryWithoutBid").finished now =
        (recordHit (recordHit { s with submitted := [] } "submittedAuctionExpiry")
          "submittedAuctionExpiryWithoutBid").finished by
      simp only [recordHit_finished, liveOf, List.filter_eq_self]
      intro fen hfen
      exact decide_eq_true (hliveF fen hfen)]
    rfl

/-- C8 witness: the sweep theorem applied at concrete states — a complete
expired submission (`sSubA`), a request-less expired entry (`sEarly`) and
a live finished entry (`sFinWin`). -/
theorem c8_sweep_behaviour_witness :
    (checkExpiredAuctions 20 sSubA).submitted = liveOf sSubA.submitted 20 ∧
    (20 : Date) < (⟨(1, 2), fiWinA, 3600⟩ : PEntry FinishedInfo).expiry ∧
    (∃ ops, (checkExpiredAuctions 20 sSubA).banker = sSubA.banker ++ ops ++ [.logBidEvents]) ∧
    checkExpiredAuctions 20 sSubA = pushBanker
      (doBidResult 20 (1, 2).1 (1, 2).2 subA 0 20 .bs_loss .inferred "null" []
        (recordHit { sSubA with submitted := [] } "submittedAuctionExpiry")).1 .logBidEvents ∧
    checkExpiredAuctions 20 sEarly = pushBanker
      (recordHit (recordHit { sEarly with submitted := [] } "submittedAuctionExpiry")
        "submittedAuctionExpiryWithoutBid") .logBidEvents :=
  ⟨c8_sweep_behaviour.1 20 sSubA,
   c8_sweep_behaviour.2.1 20 sFinWin ⟨(1, 2), fiWinA, 3600⟩ (List.mem_cons_self _ _),
   c8_sweep_behaviour.2.2.1 20 sSubA,
   c8_sweep_behaviour.2.2.2.1 20 sSubA ⟨(1, 2), subA, 15⟩ brA rfl (by decide) rfl
     (by decide) (by decide) (by decide)
     (fun fen hfen => absurd hfen (List.not_mem_nil fen)) (by decide),
   c8_sweep_behaviour.2.2.2.2 20 sEarly ⟨(1, 2), subEarly, 15⟩ rfl (by decide) rfl
     (fun fen hfen => absurd hfen (List.not_mem_nil fen))⟩

/-- C5: reorder-invariance for legal arrivals.  For a fresh key whose
auction carries a deliverable bid (non-null spot, non-empty account, not
a no-bid), processing the SubmittedAuctionEvent and then its WIN yields
exactly the same finished-map entry as processing the WIN first — within
the 15 s loss window, so it is buffered as an early win — and then the
SubmittedAuctionEvent, which replays it: both orders end with
finished[key] holding the WIN entry built from the auction's submission
and the WIN's price, timestamp, metadata and user ids. -/
theorem c5_reorder_invariance
    (s : MState) (sae : SubmittedAuctionEvent) (e : PostAuctionEvent)
    (now1a now1b now2a now2b : Date)
    (heqa : e.auctionId = sae.auctionId)
    (heqs : e.adSpotId = sae.adSpotId)
    (htype : e.type = .pae_win)
    (hs0 : pget s.submitted (sae.auctionId, sae.adSpotId) = none)
    (hf0 : pget s.finished (sae.auctionId, sae.adSpotId) = none)
    (hspot : sae.adSpotId ≠ 0)
    (hacc : sae.bidResponse.account ≠ [])
    (hnb : ¬(sae.bidResponse.price.maxPrice = 0 ∧ sae.bidResponse.price.priority = 0))
    (hgap : 1000 * (now2a - e.bidTimestamp) < 15000) :
    pget (doEvent now1b e (doAuction now1a sae s)).finished
        (sae.auctionId, sae.adSpotId) =
      some (finishedInfoOf sae.auctionId sae.adSpotId
        (findAdSpotIndex sae.bidRequest sae.adSpotId) (submissionOf sae) .bs_win
        ((submissionOf sae).bid.wcm (findAdSpotIndex sae.bidRequest sae.adSpotId)
          e.metadata e.winPrice)
        e.winPrice e.timestamp e.metadata e.uids) ∧
    pget (doAuction now2b sae (doEvent now2a e s)).finished
        (sae.auctionId, sae.adSpotId) =
      some (finishedInfoOf sae.auctionId sae.adSpotId
        (findAdSpotIndex sae.bidRequest sae.adSpotId) (submissionOf sae) .bs_win
        ((submissionOf sae).bid.wcm (findAdSpotIndex sae.bidRequest sae.adSpotId)
          e.metadata e.winPrice)
        e.winPrice e.timestamp e.metadata e.uids) := by
  obtain ⟨hA1fin, hA1sub⟩ := doAuction_fresh now1a sae s hs0
  obtain ⟨hW2fin, hW2sub⟩ := doWinLoss_early_buffer now2a e false s
    (by rw [heqa, heqs]; exact hf0) (by rw [heqa, heqs]; exact hs0) hgap
  have hE1 : doEvent now1b e (doAuction now1a sae s) =
      (doWinLoss now1b e false (doAuction now1a sae s)).1 := by
    unfold doEvent
    rw [htype]
  have hE2 : doEvent now2a e s = (doWinLoss now2a e false s).1 := by
    unfold doEvent
    rw [htype]
  constructor
  · obtain ⟨-, h1⟩ := doWinLoss_delivers_win now1b e false (doAuction now1a sae s)
      (doWinLoss now1b e false (doAuction now1a sae s)).1
      (doWinLoss now1b e false (doAuction now1a sae s)).2
      (submissionOf sae) sae.bidRequest rfl htype
      (by rw [heqa, heqs, hA1fin]; exact hf0)
      (by rw [heqa, heqs]; exact hA1sub)
      rfl (by rw [heqs]; exact hspot) hacc hnb rfl
    rw [hE1]
    rw [heqa, heqs] at h1
    exact h1
  · have h2 := doAuction_replays_early_win now2b sae e (doEvent now2a e s)
      htype heqa heqs
      (by rw [hE2, ← heqa, ← heqs]; exact hW2sub)
      (by rw [hE2, hW2fin, ← heqa, ← heqs]; rw [heqa, heqs]; exact hf0)
      hspot hacc hnb
    exact h2

/-- C5 witness: auction 1 / ad spot 2 with a WIN at price 80; the two
arrival orders are evaluated from the empty state. -/
theorem c5_reorder_invariance_witness :
    (winEvtA 2 0 80).type = PAEType.pae_win ∧
    1000 * ((1 : Date) - (winEvtA 2 0 80).bidTimestamp) < 15000 ∧
    pget (doEvent 1 (winEvtA 2 0 80) (doAuction 0 saeA initState)).finished
        (saeA.auctionId, saeA.adSpotId) =
      pget (doAuction 2 saeA (doEvent 1 (winEvtA 2 0 80) initState)).finished
        (saeA.auctionId, saeA.adSpotId) := by
  refine ⟨rfl, by decide, ?_⟩
  obtain ⟨h1, h2⟩ := c5_reorder_invariance initState saeA (winEvtA 2 0 80) 0 1 1 2
    rfl rfl rfl rfl rfl (by decide) (by decide) (by decide) (by decide)
  rw [h1, h2]

end RTBKIT
